import Mathlib

/-!
# Nordlys AI provider — verification of the streaming reconstruction state machine

Shallow embedding of the streaming path of the Nordlys Responses-API language
model (`nordlys-chat-language-model.ts`, current revision: the `doStream`
`TransformStream`) together with its event handler helpers
(`parse-nordlys-stream-event.ts`), the usage extraction, and the `doGenerate`
output mapping.

Conventions of the embedding:
* TypeScript `Map<string, T>` becomes an association list `List (String × T)`
  with `Map.get` = first-match lookup and `Map.set` = in-place update or append.
* TypeScript `Set<string>` becomes a `List String` without duplicates
  (`add` appends if absent, `delete` filters).
* The per-item reasoning summary-part registry is a JavaScript object keyed by
  numeric-string indices; JavaScript enumerates such keys in ascending numeric
  order, so it is embedded as a key-sorted association list `List (Nat × SummaryStatus)`
  whose list order coincides with the JavaScript enumeration order.
* `JSON.parse(s)` succeeding is embedded as the executable checker
  `jsonParses s = true` (a recursive-descent validator of the JSON grammar).
* Machine integers: token counts are embedded as `Int` (JavaScript number
  subtraction on integral token counts is exact integer subtraction).
-/

/-! ## JSON syntactic validity (embeds `JSON.parse` success/failure) -/

/-- JSON insignificant whitespace, as accepted by `JSON.parse`. -/
def isJsonWs (c : Char) : Bool :=
  c = ' ' ∨ c = '\t' ∨ c = '\n' ∨ c = '\r'

/-- Skip leading JSON whitespace. -/
def skipWs : List Char → List Char
  | [] => []
  | c :: cs => if isJsonWs c then skipWs cs else c :: cs

/-- Hexadecimal digit test (for `\uXXXX` escapes). -/
def isHexDigit (c : Char) : Bool :=
  (('0' ≤ c ∧ c ≤ '9') ∨ ('a' ≤ c ∧ c ≤ 'f') ∨ ('A' ≤ c ∧ c ≤ 'F'))

/-- Decimal digit test. -/
def isDigitCh (c : Char) : Bool := '0' ≤ c ∧ c ≤ '9'

/-- Consume the body of a JSON string literal after the opening quote,
returning the remainder after the closing quote. -/
def jsonStrBody : List Char → Option (List Char)
  | [] => none
  | '"' :: rest => some rest
  | '\\' :: 'u' :: h1 :: h2 :: h3 :: h4 :: rest =>
    if isHexDigit h1 ∧ isHexDigit h2 ∧ isHexDigit h3 ∧ isHexDigit h4 then
      jsonStrBody rest
    else none
  | '\\' :: e :: rest =>
    if e = '"' ∨ e = '\\' ∨ e = '/' ∨ e = 'b' ∨ e = 'f' ∨ e = 'n' ∨ e = 'r' ∨ e = 't' then
      jsonStrBody rest
    else none
  | c :: rest =>
    if c.val < 32 ∨ c = '\\' then none else jsonStrBody rest

/-- Consume one or more decimal digits. -/
def jsonDigits1 : List Char → Option (List Char)
  | c :: rest =>
    if isDigitCh c then
      some (rest.dropWhile isDigitCh)
    else none
  | [] => none

/-- Consume the integer part of a JSON number (after an optional minus):
`0` or a nonzero digit followed by digits. -/
def jsonIntPart : List Char → Option (List Char)
  | '0' :: rest => some rest
  | c :: rest =>
    if isDigitCh c ∧ c ≠ '0' then some (rest.dropWhile isDigitCh) else none
  | [] => none

/-- Consume the optional fraction part of a JSON number. -/
def jsonFracPart (cs : List Char) : Option (List Char) :=
  match cs with
  | '.' :: rest => jsonDigits1 rest
  | _ => some cs

/-- Consume the optional exponent part of a JSON number. -/
def jsonExpPart (cs : List Char) : Option (List Char) :=
  match cs with
  | e :: rest =>
    if e = 'e' ∨ e = 'E' then
      match rest with
      | s :: rest2 =>
        if s = '+' ∨ s = '-' then jsonDigits1 rest2 else jsonDigits1 rest
      | [] => none
    else some cs
  | [] => some cs

/-- Consume a JSON number. -/
def jsonNumber (cs : List Char) : Option (List Char) :=
  let cs1 := match cs with
    | '-' :: rest => rest
    | _ => cs
  match jsonIntPart cs1 with
  | none => none
  | some cs2 =>
    match jsonFracPart cs2 with
    | none => none
    | some cs3 => jsonExpPart cs3

/-- Parsing modes of the JSON validator: a value, the continuation of an
object body (after `{`), the continuation of an array body (after `[`),
members after a comma, and elements after a comma. -/
inductive JMode
  | value
  | objBody
  | objMember
  | arrBody
  | arrElem
deriving DecidableEq

/-- Fuel-indexed recursive-descent JSON validator. Returns the unconsumed
remainder on success. The fuel strictly decreases on every recursive call;
`jsonParses` supplies enough fuel for any input. -/
def jsonRun : Nat → JMode → List Char → Option (List Char)
  | 0, _, _ => none
  | Nat.succ fuel, JMode.value, cs =>
    match skipWs cs with
    | 'n' :: 'u' :: 'l' :: 'l' :: rest => some rest
    | 't' :: 'r' :: 'u' :: 'e' :: rest => some rest
    | 'f' :: 'a' :: 'l' :: 's' :: 'e' :: rest => some rest
    | '"' :: rest => jsonStrBody rest
    | '{' :: rest => jsonRun fuel JMode.objBody rest
    | '[' :: rest => jsonRun fuel JMode.arrBody rest
    | cs' => jsonNumber cs'
  | Nat.succ fuel, JMode.objBody, cs =>
    match skipWs cs with
    | '}' :: rest => some rest
    | _ => jsonRun fuel JMode.objMember cs
  | Nat.succ fuel, JMode.objMember, cs =>
    match skipWs cs with
    | '"' :: rest =>
      match jsonStrBody rest with
      | none => none
      | some afterKey =>
        match skipWs afterKey with
        | ':' :: afterColon =>
          match jsonRun fuel JMode.value afterColon with
          | none => none
          | some afterVal =>
            match skipWs afterVal with
            | ',' :: afterComma => jsonRun fuel JMode.objMember afterComma
            | '}' :: rest2 => some rest2
            | _ => none
        | _ => none
    | _ => none
  | Nat.succ fuel, JMode.arrBody, cs =>
    match skipWs cs with
    | ']' :: rest => some rest
    | _ => jsonRun fuel JMode.arrElem cs
  | Nat.succ fuel, JMode.arrElem, cs =>
    match jsonRun fuel JMode.value cs with
    | none => none
    | some afterVal =>
      match skipWs afterVal with
      | ',' :: afterComma => jsonRun fuel JMode.arrElem afterComma
      | ']' :: rest => some rest
      | _ => none

/-- `jsonParses s` embeds "`JSON.parse(s)` does not throw": the whole of `s`
is one JSON value surrounded by optional whitespace. The empty and
whitespace-only strings are rejected, exactly as `JSON.parse` rejects them. -/
def jsonParses (s : String) : Bool :=
  match jsonRun (s.length + 1) JMode.value s.data with
  | none => false
  | some rest => skipWs rest = []

example : jsonParses "" = false := by decide
example : jsonParses "   " = false := by decide
example : jsonParses "{}" = true := by decide
example : jsonParses "\x7b\"param\": \"value\"\x7d" = true := by decide
example : jsonParses "\x7b\"param\":" = false := by decide
example : jsonParses "\x7b\"loc\":\"SF\"\x7d" = true := by decide
example : jsonParses "[1, 2.5, -3e2]" = true := by decide
example : jsonParses "true " = true := by decide

/-! ## Association-list embedding of `Map<string, T>` and `Set<string>` -/

/-- `Map.get`: first matching key. -/
def mapGet {α : Type} : List (String × α) → String → Option α
  | [], _ => none
  | (k, v) :: rest, key => if k = key then some v else mapGet rest key

/-- `Map.set`: update in place if the key is present, else append. -/
def mapSet {α : Type} : List (String × α) → String → α → List (String × α)
  | [], key, v => [(key, v)]
  | (k, w) :: rest, key, v =>
    if k = key then (k, v) :: rest else (k, w) :: mapSet rest key v

/-- `delete obj[key]` / `Map.delete`. -/
def mapDel {α : Type} (m : List (String × α)) (key : String) : List (String × α) :=
  m.filter (fun kv => kv.1 ≠ key)

/-- `Set.has`. -/
def setHas (s : List String) (x : String) : Bool := s.contains x

/-- `Set.add`: appends if absent (JavaScript sets preserve insertion order). -/
def setAdd (s : List String) (x : String) : List String :=
  if setHas s x then s else s ++ [x]

/-- `Set.delete`. -/
def setDel (s : List String) (x : String) : List String :=
  s.filter (fun y => y ≠ x)

/-! ## Session state (`NordlysStreamState`, parse-nordlys-stream-event.ts) -/

/-- One tool-call buffer entry: `{ id, name, arguments }`. -/
structure ToolCallBuffer where
  id : String
  name : String
  arguments : String
deriving DecidableEq

/-- `NordlysStreamState`: buffers and active-item sets of the streaming parser. -/
structure NordlysStreamState where
  textBuffers : List (String × String)
  reasoningBuffers : List (String × String)
  toolCallBuffers : List (String × ToolCallBuffer)
  activeTextItems : List String
  activeReasoningItems : List String
  activeToolCalls : List String
deriving DecidableEq

/-- `createStreamState()`. -/
def createStreamState : NordlysStreamState :=
  { textBuffers := [], reasoningBuffers := [], toolCallBuffers := []
  , activeTextItems := [], activeReasoningItems := [], activeToolCalls := [] }

/-! ## Wire events (backend SSE payloads, nordlys-responses-types.ts) -/

/-- A content part of a `content_part.added` / `content_part.done` event, and
also an entry of a message item's `content` array (whose entries carry the
same `output_text` / `refusal` type tags). -/
inductive ContentPart
  | outputText (text : String)
  | refusal (refusal : String)
  | reasoningText (text : String)
deriving DecidableEq

/-- The `type` tag of an output item, as tracked in the driver's `itemTypes`
side table. -/
inductive ItemKind
  | message
  | reasoning
  | functionCall
deriving DecidableEq

/-- An output item of a `response.output_item.added` event. A `function_call`
item carries both the wire item identifier `id` and the logical `call_id`
(`callId`); backends correlate argument deltas by `id` while the
caller-visible tool-call identifier is `call_id`. -/
inductive OutputItem
  | message (id : String) (content : List ContentPart)
  | reasoning (id : String) (encryptedContent : Option String)
  | functionCall (id : String) (callId : String) (name : String) (arguments : String)
deriving DecidableEq

/-- The item identifier of an output item. -/
def OutputItem.itemId : OutputItem → String
  | .message id _ => id
  | .reasoning id _ => id
  | .functionCall id _ _ _ => id

/-- The kind tag of an output item. -/
def OutputItem.kind : OutputItem → ItemKind
  | .message _ _ => .message
  | .reasoning _ _ => .reasoning
  | .functionCall _ _ _ _ => .functionCall

/-- Usage block of a `response.completed` event. The nested optional
`input_tokens_details?.cached_tokens` and `output_tokens_details?.reasoning_tokens`
chains are flattened to one optional field each (the code only ever reads them
through `?.` chains, for which a missing object and a missing field agree). -/
structure NordlysUsage where
  inputTokens : Int
  outputTokens : Int
  cachedTokens : Option Int
  reasoningTokens : Option Int
deriving DecidableEq

/-- One backend wire event, tagged as in the stream-event schema union.
`invalid` stands for a chunk whose parsing/validation failed
(`chunk.success === false`). Payload fields not read by any handler
(`output_index`, `content_index`, `sequence_number`, logprobs) are elided. -/
inductive WireEvent
  | created (responseId : String) (createdAt : Int) (modelId : String)
  | outputItemAdded (item : OutputItem)
  | outputItemDone (id : String) (kind : ItemKind)
  | outputTextDelta (itemId : String) (delta : String)
  | outputTextDone (itemId : String) (text : String)
  | reasoningTextDelta (itemId : String) (delta : String)
  | functionCallArgumentsDelta (itemId : String) (delta : String)
  | functionCallArgumentsDone (itemId : String)
  | contentPartAdded (itemId : String) (part : ContentPart)
  | contentPartDone (itemId : String) (part : ContentPart)
  | reasoningSummaryPartAdded (itemId : String) (summaryIndex : Nat)
  | reasoningSummaryTextDelta (itemId : String) (summaryIndex : Nat) (delta : String)
  | reasoningSummaryTextDone (itemId : String) (summaryIndex : Nat) (text : String)
  | reasoningSummaryPartDone (itemId : String) (summaryIndex : Nat)
  | completed (status : String) (usage : Option NordlysUsage) (serviceTier : Option String)
  | errorEvent (message : String)
  | invalid
deriving DecidableEq

/-! ## Handler helpers (parse-nordlys-stream-event.ts) -/

/-- Result record of `handleOutputItemAdded`. -/
structure OutputItemAddedResult where
  shouldEmitTextStart : Bool
  textItemId : Option String
  shouldEmitReasoningStart : Bool
  reasoningItemId : Option String
  shouldEmitToolInputStart : Bool
  toolCallId : Option String
  toolName : Option String
deriving DecidableEq

/-- The all-false initial result of `handleOutputItemAdded`. -/
def emptyAddedResult : OutputItemAddedResult :=
  { shouldEmitTextStart := false, textItemId := none
  , shouldEmitReasoningStart := false, reasoningItemId := none
  , shouldEmitToolInputStart := false, toolCallId := none, toolName := none }

/-- `handleOutputItemAdded` (parse-nordlys-stream-event.ts, current revision:
the message case emits `text-start` unconditionally on first sight, and the
function_call case keys the buffer by the wire item id while tracking the
logical `call_id` in the active set and in the buffer's `id` field). -/
def handleOutputItemAdded (item : OutputItem) (state : NordlysStreamState) :
    NordlysStreamState × OutputItemAddedResult :=
  match item with
  | .message id _ =>
    if setHas state.activeTextItems id then (state, emptyAddedResult)
    else
      ({ state with
          activeTextItems := setAdd state.activeTextItems id
          textBuffers := mapSet state.textBuffers id "" }
      , { emptyAddedResult with shouldEmitTextStart := true, textItemId := some id })
  | .reasoning id _ =>
    if setHas state.activeReasoningItems id then (state, emptyAddedResult)
    else
      ({ state with
          activeReasoningItems := setAdd state.activeReasoningItems id
          reasoningBuffers := mapSet state.reasoningBuffers id "" }
      , { emptyAddedResult with shouldEmitReasoningStart := true, reasoningItemId := some id })
  | .functionCall id callId name args =>
    if setHas state.activeToolCalls callId then (state, emptyAddedResult)
    else
      ({ state with
          activeToolCalls := setAdd state.activeToolCalls callId
          toolCallBuffers := mapSet state.toolCallBuffers id
            { id := callId, name := name, arguments := args } }
      , { emptyAddedResult with
          shouldEmitToolInputStart := true, toolCallId := some callId
          , toolName := some name })

/-- `handleOutputItemAdded`, earlier revision in which the message case is
conditioned on the item carrying text content (`hasText`: some content entry
of type `output_text` or `refusal`), and the function_call case is keyed
solely by the item id. -/
def handleOutputItemAddedHasText (item : OutputItem) (state : NordlysStreamState) :
    NordlysStreamState × OutputItemAddedResult :=
  match item with
  | .message id content =>
    let hasText := content.any (fun c =>
      match c with
      | .outputText _ => true
      | .refusal _ => true
      | .reasoningText _ => false)
    if hasText ∧ ¬ setHas state.activeTextItems id then
      ({ state with
          activeTextItems := setAdd state.activeTextItems id
          textBuffers := mapSet state.textBuffers id "" }
      , { emptyAddedResult with shouldEmitTextStart := true, textItemId := some id })
    else (state, emptyAddedResult)
  | .reasoning id _ =>
    if setHas state.activeReasoningItems id then (state, emptyAddedResult)
    else
      ({ state with
          activeReasoningItems := setAdd state.activeReasoningItems id
          reasoningBuffers := mapSet state.reasoningBuffers id "" }
      , { emptyAddedResult with shouldEmitReasoningStart := true, reasoningItemId := some id })
  | .functionCall id _ name args =>
    if setHas state.activeToolCalls id then (state, emptyAddedResult)
    else
      ({ state with
          activeToolCalls := setAdd state.activeToolCalls id
          toolCallBuffers := mapSet state.toolCallBuffers id
            { id := id, name := name, arguments := args } }
      , { emptyAddedResult with
          shouldEmitToolInputStart := true, toolCallId := some id
          , toolName := some name })

/-- `handleTextDelta`: append to the (defensively created) text buffer,
return the incremental delta and item id. -/
def handleTextDelta (itemId delta : String) (state : NordlysStreamState) :
    NordlysStreamState × String × String :=
  let current := (mapGet state.textBuffers itemId).getD ""
  ({ state with textBuffers := mapSet state.textBuffers itemId (current ++ delta) }
  , delta, itemId)

/-- `handleReasoningDelta`: append to the (defensively created) reasoning
buffer, return the incremental delta and item id. -/
def handleReasoningDelta (itemId delta : String) (state : NordlysStreamState) :
    NordlysStreamState × String × String :=
  let current := (mapGet state.reasoningBuffers itemId).getD ""
  ({ state with reasoningBuffers := mapSet state.reasoningBuffers itemId (current ++ delta) }
  , delta, itemId)

/-- `handleFunctionCallArgumentsDelta`: append the delta to the addressed
tool-call buffer when it exists; when the buffer is absent the state is left
unchanged (the returned `currentArguments` is not read by the driver). The
returned tool-call id is the wire item id. -/
def handleFunctionCallArgumentsDelta (itemId delta : String)
    (state : NordlysStreamState) : NordlysStreamState × String × String :=
  match mapGet state.toolCallBuffers itemId with
  | none => (state, delta, itemId)
  | some tc =>
    ({ state with
        toolCallBuffers := mapSet state.toolCallBuffers itemId
          { tc with arguments := tc.arguments ++ delta } }
    , delta, itemId)

/-- `isToolCallComplete`: the buffer exists and its accumulated argument
string parses as JSON. -/
def isToolCallComplete (toolCallId : String) (state : NordlysStreamState) : Bool :=
  match mapGet state.toolCallBuffers toolCallId with
  | none => false
  | some tc => jsonParses tc.arguments

/-- `getCompletedToolCall`: the buffer's call id, tool name and accumulated
argument string, with no completeness check. -/
def getCompletedToolCall (toolCallId : String) (state : NordlysStreamState) :
    Option (String × String × String) :=
  match mapGet state.toolCallBuffers toolCallId with
  | none => none
  | some tc => some (tc.id, tc.name, tc.arguments)

/-- Result record of `handleContentPartAdded`. -/
structure ContentPartAddedResult where
  shouldEmitTextStart : Bool
  shouldEmitTextDelta : Bool
  textDelta : Option String
  itemId : Option String
  shouldEmitReasoningDelta : Bool
  reasoningDelta : Option String
  reasoningItemId : Option String
deriving DecidableEq

/-- The all-false initial result of `handleContentPartAdded`. -/
def emptyPartAddedResult : ContentPartAddedResult :=
  { shouldEmitTextStart := false, shouldEmitTextDelta := false, textDelta := none
  , itemId := none, shouldEmitReasoningDelta := false, reasoningDelta := none
  , reasoningItemId := none }

/-- `handleContentPartAdded`: activate the item defensively if needed
(resetting the buffer to empty), then append the part's text and report the
delta. A refusal part is treated as text. -/
def handleContentPartAdded (itemId : String) (part : ContentPart)
    (state : NordlysStreamState) : NordlysStreamState × ContentPartAddedResult :=
  match part with
  | .outputText text =>
    let wasNotActive := ¬ setHas state.activeTextItems itemId
    let st1 :=
      if wasNotActive then
        { state with
            activeTextItems := setAdd state.activeTextItems itemId
            textBuffers := mapSet state.textBuffers itemId "" }
      else state
    let current := (mapGet st1.textBuffers itemId).getD ""
    ({ st1 with textBuffers := mapSet st1.textBuffers itemId (current ++ text) }
    , { emptyPartAddedResult with
        shouldEmitTextStart := wasNotActive, shouldEmitTextDelta := true
        , textDelta := some text, itemId := some itemId })
  | .refusal text =>
    let wasNotActive := ¬ setHas state.activeTextItems itemId
    let st1 :=
      if wasNotActive then
        { state with
            activeTextItems := setAdd state.activeTextItems itemId
            textBuffers := mapSet state.textBuffers itemId "" }
      else state
    let current := (mapGet st1.textBuffers itemId).getD ""
    ({ st1 with textBuffers := mapSet st1.textBuffers itemId (current ++ text) }
    , { emptyPartAddedResult with
        shouldEmitTextStart := wasNotActive, shouldEmitTextDelta := true
        , textDelta := some text, itemId := some itemId })
  | .reasoningText text =>
    let st1 :=
      if ¬ setHas state.activeReasoningItems itemId then
        { state with
            activeReasoningItems := setAdd state.activeReasoningItems itemId
            reasoningBuffers := mapSet state.reasoningBuffers itemId "" }
      else state
    let current := (mapGet st1.reasoningBuffers itemId).getD ""
    ({ st1 with reasoningBuffers := mapSet st1.reasoningBuffers itemId (current ++ text) }
    , { emptyPartAddedResult with
        shouldEmitReasoningDelta := true, reasoningDelta := some text
        , reasoningItemId := some itemId })

/-- Result record of `handleContentPartDone`. -/
structure ContentPartDoneResult where
  shouldEmitTextEnd : Bool
  itemId : Option String
  shouldEmitReasoningEnd : Bool
  reasoningItemId : Option String
deriving DecidableEq

/-- The all-false initial result of `handleContentPartDone`. -/
def emptyPartDoneResult : ContentPartDoneResult :=
  { shouldEmitTextEnd := false, itemId := none
  , shouldEmitReasoningEnd := false, reasoningItemId := none }

/-- `handleContentPartDone`: append the part's final text to the buffer when
non-empty (`if (part.text)` — JavaScript truthiness), emit no text end
(item-done owns that), and mark a reasoning end when the reasoning item is
active. -/
def handleContentPartDone (itemId : String) (part : ContentPart)
    (state : NordlysStreamState) : NordlysStreamState × ContentPartDoneResult :=
  match part with
  | .outputText text =>
    let st1 :=
      if text ≠ "" then
        let current := (mapGet state.textBuffers itemId).getD ""
        { state with textBuffers := mapSet state.textBuffers itemId (current ++ text) }
      else state
    (st1, emptyPartDoneResult)
  | .refusal text =>
    let st1 :=
      if text ≠ "" then
        let current := (mapGet state.textBuffers itemId).getD ""
        { state with textBuffers := mapSet state.textBuffers itemId (current ++ text) }
      else state
    (st1, emptyPartDoneResult)
  | .reasoningText text =>
    let st1 :=
      if text ≠ "" then
        let current := (mapGet state.reasoningBuffers itemId).getD ""
        { state with reasoningBuffers := mapSet state.reasoningBuffers itemId (current ++ text) }
      else state
    if setHas st1.activeReasoningItems itemId then
      (st1, { emptyPartDoneResult with
              shouldEmitReasoningEnd := true, reasoningItemId := some itemId })
    else (st1, emptyPartDoneResult)

/-- `extractUsageFromCompleted` result: totals with optional sub-splits. -/
structure ExtractedUsage where
  inputTotal : Int
  inputCacheRead : Option Int
  inputNoCache : Option Int
  outputTotal : Int
  outputReasoning : Option Int
  outputText : Option Int
deriving DecidableEq

/-- `extractUsageFromCompleted`: totals pass through; `noCache` and `text`
are plain subtractions `total − subcategory`, present exactly when the
subcategory is supplied, never clamped. A missing usage block yields zero
totals with absent sub-splits. -/
def extractUsageFromCompleted (usage : Option NordlysUsage) : ExtractedUsage :=
  match usage with
  | none =>
    { inputTotal := 0, inputCacheRead := none, inputNoCache := none
    , outputTotal := 0, outputReasoning := none, outputText := none }
  | some u =>
    { inputTotal := u.inputTokens
    , inputCacheRead := u.cachedTokens
    , inputNoCache := u.cachedTokens.map (fun c => u.inputTokens - c)
    , outputTotal := u.outputTokens
    , outputReasoning := u.reasoningTokens
    , outputText := u.reasoningTokens.map (fun r => u.outputTokens - r) }

/-! ## Driver state (nordlys-chat-language-model.ts, `doStream`) -/

/-- Tri-state status of one reasoning summary sub-part. -/
inductive SummaryStatus
  | active
  | canConclude
  | concluded
deriving DecidableEq

/-- Key-sorted insert-or-update into a summary-part registry. JavaScript
objects enumerate integer-like keys in ascending numeric order, so keeping
the association list key-sorted makes list order equal enumeration order. -/
def regSet : List (Nat × SummaryStatus) → Nat → SummaryStatus → List (Nat × SummaryStatus)
  | [], k, v => [(k, v)]
  | (k0, v0) :: rest, k, v =>
    if k = k0 then (k0, v) :: rest
    else if k < k0 then (k, v) :: (k0, v0) :: rest
    else (k0, v0) :: regSet rest k v

/-- Registry lookup. -/
def regGet : List (Nat × SummaryStatus) → Nat → Option SummaryStatus
  | [], _ => none
  | (k0, v0) :: rest, k => if k0 = k then some v0 else regGet rest k

/-- Per-reasoning-item driver entry: the captured opaque encrypted-content
token and the summary-part registry. -/
structure ReasoningEntry where
  encryptedContent : Option String
  summaryParts : List (Nat × SummaryStatus)
deriving DecidableEq

/-- `LanguageModelV3FinishReason`: a unified tag with the optional raw
backend string. -/
structure FinishReason where
  unified : String
  raw : Option String
deriving DecidableEq

/-- Converted usage shape carried on the terminal finish event. -/
structure ConvertedUsage where
  inputTotal : Option Int
  inputNoCache : Option Int
  inputCacheRead : Option Int
  outputTotal : Option Int
  outputText : Option Int
  outputReasoning : Option Int
deriving DecidableEq

/-- Modelled from the spec: `convertNordlysResponsesUsage`
(convert-nordlys-responses-usage.ts is not part of the dump). Totals pass
through; the cache-read and reasoning sub-splits are kept, and the no-cache /
text splits are `total − subcategory` when the subcategory is supplied, else
absent; with no recorded usage every field is absent. -/
def convertNordlysResponsesUsage : Option NordlysUsage → ConvertedUsage
  | none =>
    { inputTotal := none, inputNoCache := none, inputCacheRead := none
    , outputTotal := none, outputText := none, outputReasoning := none }
  | some u =>
    { inputTotal := some u.inputTokens
    , inputNoCache := u.cachedTokens.map (fun c => u.inputTokens - c)
    , inputCacheRead := u.cachedTokens
    , outputTotal := some u.outputTokens
    , outputText := u.reasoningTokens.map (fun r => u.outputTokens - r)
    , outputReasoning := u.reasoningTokens }

/-- Modelled from the spec: `mapNordlysFinishReason` in its current
object-argument revision (the revision in the dump takes a raw status
string; the streaming driver calls it with
`{ finishReason: 'max_output_tokens' | null, hasFunctionCall }`). The spec's
closed set: `max_output_tokens` maps to `length`; a normal close maps to
`tool-calls` when client-side tool calls were seen, else `stop`; anything
else is `other`. -/
def mapNordlysFinishReason (finishReason : Option String) (hasFunctionCall : Bool) : String :=
  match finishReason with
  | some r => if r = "max_output_tokens" then "length" else "other"
  | none => if hasFunctionCall then "tool-calls" else "stop"

/-- One caller-facing lifecycle event (`LanguageModelV3StreamPart`).
Provider-metadata payloads of intermediate events are elided; the terminal
finish event keeps its collected metadata (response id, service tier). -/
inductive LifecycleEvent
  | streamStart
  | responseMetadata (responseId : String) (modelId : String)
  | textStart (id : String)
  | textDelta (id : String) (delta : String)
  | textEnd (id : String)
  | reasoningStart (id : String)
  | reasoningDelta (id : String) (delta : String)
  | reasoningEnd (id : String)
  | toolInputStart (id : String) (toolName : String)
  | toolInputDelta (id : String) (delta : String)
  | toolInputEnd (id : String)
  | toolCall (toolCallId : String) (toolName : String) (input : String)
  | errorOut
  | finish (finishReason : FinishReason) (usage : ConvertedUsage)
      (responseId : Option String) (serviceTier : Option String)
deriving DecidableEq

/-- The composite sub-part identifier `` `${itemId}:${summaryIndex}` ``. -/
def subId (itemId : String) (summaryIndex : Nat) : String :=
  itemId ++ ":" ++ toString summaryIndex

/-- Mutable driver state closed over by the `doStream` transform: the parse
session state plus finish reason, recorded usage, response id, the
`itemTypes` side table, the client-side tool-call flag, the per-item
reasoning registries and the service tier. (`ongoingToolCalls` is written by
the source but never read, and is elided.) -/
structure DriverState where
  parse : NordlysStreamState
  finishReason : FinishReason
  usage : Option NordlysUsage
  responseId : Option String
  itemTypes : List (String × ItemKind)
  hasFunctionCall : Bool
  activeReasoning : List (String × ReasoningEntry)
  serviceTier : Option String
deriving DecidableEq

/-- Driver state at stream start. -/
def initialDriverState : DriverState :=
  { parse := createStreamState
  , finishReason := { unified := "other", raw := none }
  , usage := none, responseId := none, itemTypes := []
  , hasFunctionCall := false, activeReasoning := [], serviceTier := none }

/-- One step of the `doStream` transform: processes one wire event, returning
the new driver state and the lifecycle events enqueued, in order. `store` is
the persistence flag threaded from the original request.

The `function_call` branch of `output_item.added` registers the tool-call
buffer through `handleOutputItemAdded` while emitting `tool-input-start`
unconditionally with the wire item id, as the driver does; the registration
itself is the helper's `function_call` case (the driver revision in the dump
omits this call although every downstream tool-call handler and the
repository's own streaming test require the buffer registered at item-added
time — spec §4.2, item-added (function_call)). -/
def stepEvent (store : Bool) (s : DriverState) (e : WireEvent) :
    DriverState × List LifecycleEvent :=
  match e with
  | .invalid =>
    ({ s with finishReason := { unified := "error", raw := none } }, [.errorOut])
  | .outputItemAdded item =>
    let s0 := { s with itemTypes := mapSet s.itemTypes item.itemId item.kind }
    match item with
    | .functionCall id _ name _ =>
      let (parse', _) := handleOutputItemAdded item s0.parse
      ({ s0 with parse := parse' }, [.toolInputStart id name])
    | .message _ _ =>
      let (parse', r) := handleOutputItemAdded item s0.parse
      let out :=
        match r.textItemId with
        | some tid => if r.shouldEmitTextStart then [.textStart tid] else []
        | none => []
      ({ s0 with parse := parse' }, out)
    | .reasoning id enc =>
      let s1 := { s0 with
        activeReasoning := mapSet s0.activeReasoning id
          { encryptedContent := enc, summaryParts := [(0, .active)] } }
      let (parse', r) := handleOutputItemAdded item s1.parse
      let out :=
        match r.reasoningItemId with
        | some rid => if r.shouldEmitReasoningStart then [.reasoningStart (subId rid 0)] else []
        | none => []
      ({ s1 with parse := parse' }, out)
  | .outputItemDone id kind =>
    let itemTypes' :=
      match mapGet s.itemTypes id with
      | none => mapSet s.itemTypes id kind
      | some _ => s.itemTypes
    let itemType := (mapGet s.itemTypes id).getD kind
    let s0 := { s with itemTypes := itemTypes' }
    match itemType with
    | .message =>
      ({ s0 with parse := { s0.parse with
          activeTextItems := setDel s0.parse.activeTextItems id } }
      , [.textEnd id])
    | .reasoning =>
      match mapGet s0.activeReasoning id with
      | none => (s0, [])
      | some entry =>
        let idxs := (entry.summaryParts.filter
          (fun p => p.2 = SummaryStatus.active ∨ p.2 = SummaryStatus.canConclude)).map
          (fun p => p.1)
        ({ s0 with activeReasoning := mapDel s0.activeReasoning id }
        , idxs.map (fun k => .reasoningEnd (subId id k)))
    | .functionCall => (s0, [])
  | .outputTextDelta itemId delta =>
    let (parse', d, i) := handleTextDelta itemId delta s.parse
    ({ s with parse := parse' }, [.textDelta i d])
  | .outputTextDone _ _ => (s, [])
  | .reasoningTextDelta itemId delta =>
    let (parse', d, i) := handleReasoningDelta itemId delta s.parse
    ({ s with parse := parse' }, [.reasoningDelta i d])
  | .functionCallArgumentsDelta itemId delta =>
    let (parse1, d, toolCallId) := handleFunctionCallArgumentsDelta itemId delta s.parse
    let deltaOut := [LifecycleEvent.toolInputDelta toolCallId d]
    if isToolCallComplete toolCallId parse1 then
      let parse2 := { parse1 with
        activeToolCalls := setDel parse1.activeToolCalls toolCallId }
      match getCompletedToolCall toolCallId parse2 with
      | some (cid, cname, cargs) =>
        ({ s with parse := parse2, hasFunctionCall := true }
        , deltaOut ++ [.toolInputEnd toolCallId, .toolCall cid cname cargs])
      | none =>
        ({ s with parse := parse2 }, deltaOut ++ [.toolInputEnd toolCallId])
    else ({ s with parse := parse1 }, deltaOut)
  | .functionCallArgumentsDone itemId =>
    let parse1 := { s.parse with
      activeToolCalls := setDel s.parse.activeToolCalls itemId }
    match getCompletedToolCall itemId parse1 with
    | some (cid, cname, cargs) =>
      ({ s with parse := parse1, hasFunctionCall := true }
      , [.toolInputEnd itemId, .toolCall cid cname cargs])
    | none => ({ s with parse := parse1 }, [.toolInputEnd itemId])
  | .created responseId _ modelId =>
    ({ s with responseId := some responseId }, [.responseMetadata responseId modelId])
  | .reasoningSummaryPartAdded itemId summaryIndex =>
    if 0 < summaryIndex then
      match mapGet s.activeReasoning itemId with
      | none => (s, [])
      | some entry =>
        let parts1 := regSet entry.summaryParts summaryIndex .active
        let ccKeys := (parts1.filter (fun p => p.2 = SummaryStatus.canConclude)).map
          (fun p => p.1)
        let parts2 := parts1.map (fun p =>
          if p.2 = SummaryStatus.canConclude then (p.1, SummaryStatus.concluded) else p)
        let entry2 := { entry with summaryParts := parts2 }
        ({ s with activeReasoning := mapSet s.activeReasoning itemId entry2 }
        , ccKeys.map (fun k => LifecycleEvent.reasoningEnd (subId itemId k))
            ++ [.reasoningStart (subId itemId summaryIndex)])
    else (s, [])
  | .reasoningSummaryTextDelta itemId summaryIndex delta =>
    (s, [.reasoningDelta (subId itemId summaryIndex) delta])
  | .reasoningSummaryTextDone _ _ _ => (s, [])
  | .reasoningSummaryPartDone itemId summaryIndex =>
    match mapGet s.activeReasoning itemId with
    | none => (s, [])
    | some entry =>
      if store then
        let entry2 := { entry with
          summaryParts := regSet entry.summaryParts summaryIndex .concluded }
        ({ s with activeReasoning := mapSet s.activeReasoning itemId entry2 }
        , [.reasoningEnd (subId itemId summaryIndex)])
      else
        let entry2 := { entry with
          summaryParts := regSet entry.summaryParts summaryIndex .canConclude }
        ({ s with activeReasoning := mapSet s.activeReasoning itemId entry2 }
        , [])
  | .completed status usage serviceTier =>
    let rawReason : Option String :=
      if status = "incomplete" then some "max_output_tokens" else none
    let s1 := { s with finishReason :=
      { unified := mapNordlysFinishReason rawReason s.hasFunctionCall, raw := rawReason } }
    let s2 := match usage with
      | some u => { s1 with usage := some u }
      | none => s1
    let s3 := match serviceTier with
      | some t => { s2 with serviceTier := some t }
      | none => s2
    (s3, [])
  | .contentPartAdded itemId part =>
    let (parse', r) := handleContentPartAdded itemId part s.parse
    let textOut :=
      match r.textDelta, r.itemId with
      | some d, some i =>
        if r.shouldEmitTextDelta ∧ d ≠ "" then [LifecycleEvent.textDelta i d] else []
      | _, _ => []
    let reasoningOut :=
      match r.reasoningDelta, r.reasoningItemId with
      | some d, some i =>
        if r.shouldEmitReasoningDelta ∧ d ≠ "" then [LifecycleEvent.reasoningDelta i d] else []
      | _, _ => []
    ({ s with parse := parse' }, textOut ++ reasoningOut)
  | .contentPartDone itemId part =>
    let (parse1, r) := handleContentPartDone itemId part s.parse
    let parse2 :=
      match r.reasoningItemId with
      | some i =>
        if r.shouldEmitReasoningEnd then
          { parse1 with activeReasoningItems := setDel parse1.activeReasoningItems i }
        else parse1
      | none => parse1
    ({ s with parse := parse2 }, [])
  | .errorEvent _ =>
    ({ s with finishReason := { unified := "error", raw := none } }, [.errorOut])

/-- The `flush` of the current `doStream` transform: it enqueues the single
terminal finish event and nothing else. -/
def flushDriver (s : DriverState) : List LifecycleEvent :=
  [.finish s.finishReason (convertNordlysResponsesUsage s.usage) s.responseId s.serviceTier]

/-- Process a list of wire events from a given state, accumulating outputs. -/
def runEvents (store : Bool) : DriverState → List WireEvent → DriverState × List LifecycleEvent
  | s, [] => (s, [])
  | s, e :: rest =>
    let (s1, out1) := stepEvent store s e
    let (s2, out2) := runEvents store s1 rest
    (s2, out1 ++ out2)

/-- The driver state after processing a whole wire-event sequence. -/
def finalDriverState (store : Bool) (events : List WireEvent) : DriverState :=
  (runEvents store initialDriverState events).1

/-- The full lifecycle-event sequence of one stream: the start event, the
transform outputs in order, then the flush output. -/
def doStreamRun (store : Bool) (events : List WireEvent) : List LifecycleEvent :=
  LifecycleEvent.streamStart :: (runEvents store initialDriverState events).2
    ++ flushDriver (finalDriverState store events)

/-! ## `doGenerate` output mapping (nordlys-chat-language-model.ts) -/

/-- One output part of a non-streaming response, as the mapping loop reads
it: a reasoning item's summary entries are read only through their `text`
field, a message item's content entries only through `text`. -/
inductive GenOutputPart
  | reasoning (id : String) (summary : List String) (encryptedContent : Option String)
  | message (id : String) (content : List String)
  | functionCall (id : String) (name : String) (arguments : String)
deriving DecidableEq

/-- One caller-facing content item built by `doGenerate`, with the provider
metadata the mapping attaches (`itemId`, and for reasoning the verbatim
`encrypted_content ?? null`, embedded as the unchanged optional value). -/
inductive GenContent
  | reasoning (text : String) (itemId : String) (reasoningEncryptedContent : Option String)
  | text (text : String) (itemId : String)
  | toolCall (toolCallId : String) (toolName : String) (input : String) (itemId : String)
deriving DecidableEq

/-- The `doGenerate` mapping of one output part: a reasoning part with an
empty summary array first receives a pushed empty `summary_text` entry, then
every summary entry becomes one reasoning content item; message content
entries become text items; a function call becomes one tool-call item. -/
def doGenerateContentOfPart : GenOutputPart → List GenContent
  | .reasoning id summary enc =>
    let summary2 := if summary = [] then [""] else summary
    summary2.map (fun t => .reasoning t id enc)
  | .message id content => content.map (fun t => .text t id)
  | .functionCall id name args => [.toolCall id name args id]

/-- The `doGenerate` content list: the concatenation of the per-part
mappings, in output order. -/
def doGenerateContent (output : List GenOutputPart) : List GenContent :=
  output.flatMap doGenerateContentOfPart

/-! ## Observations used by the theorems -/

/-- The text buffer the state holds for an identifier, with the code's
`|| ''` default for an absent buffer. -/
def textBufOf (s : DriverState) (id : String) : String :=
  (mapGet s.parse.textBuffers id).getD ""

/-- Ordered concatenation of the payloads of every `text-delta` lifecycle
event for a given identifier. -/
def textDeltasConcat (id : String) : List LifecycleEvent → String
  | [] => ""
  | .textDelta i d :: rest => (if i = id then d else "") ++ textDeltasConcat id rest
  | _ :: rest => textDeltasConcat id rest

/-- Is this lifecycle event the terminal finish event? -/
def isFinishEv : LifecycleEvent → Bool
  | .finish _ _ _ _ => true
  | _ => false

/-- Is this lifecycle event a `tool-call` for the given call identifier? -/
def isToolCallFor (id : String) : LifecycleEvent → Bool
  | .toolCall cid _ _ => cid = id
  | _ => false

/-- Wire-event kinds whose handler can emit a `reasoning-end` lifecycle
event (summary-part-added, summary-part-done, item-done). -/
def mayEmitReasoningEnd : WireEvent → Bool
  | .reasoningSummaryPartAdded _ _ => true
  | .reasoningSummaryPartDone _ _ => true
  | .outputItemDone _ _ => true
  | _ => false

/-- Does this content part accumulate into the text buffer (`output_text`
or `refusal`)? -/
def isTextPart : ContentPart → Bool
  | .outputText _ => true
  | .refusal _ => true
  | .reasoningText _ => false

/-! ## Well-formed wire sequences for the buffer-concatenation invariant

The buffer-equals-concatenation invariant cannot hold for arbitrary
interleavings (the machine resets a buffer on a late `item-added` and appends
without emitting on `content_part.done`); the scan below delimits the
sequences on which it does hold for a given text identifier: at most one
message `item-added`, and only before any delta for the identifier; content
parts only while the item is open (or as its very first activity); no
`content_part.done` carrying text for the identifier; nothing further after
the item's `item-done`. -/

/-- Scan state for the per-identifier well-formedness check. -/
structure TextWf where
  added : Bool
  deltaSeen : Bool
  closed : Bool
deriving DecidableEq

/-- Initial scan state. -/
def textWfInit : TextWf := { added := false, deltaSeen := false, closed := false }

/-- One step of the well-formedness scan for text identifier `id`: `none`
means the sequence is rejected. -/
def textWfStep (id : String) : Option TextWf → WireEvent → Option TextWf
  | none, _ => none
  | some w, e =>
    match e with
    | .outputItemAdded (.message mid _) =>
      if mid = id then
        if w.added = false ∧ w.deltaSeen = false ∧ w.closed = false then
          some { w with added := true }
        else none
      else some w
    | .outputTextDelta mid _ =>
      if mid = id then
        if w.closed = false then some { w with deltaSeen := true } else none
      else some w
    | .contentPartAdded mid part =>
      if mid = id ∧ isTextPart part then
        if w.closed = false ∧ (w.added ∨ w.deltaSeen = false) then
          some { added := true, deltaSeen := true, closed := false }
        else none
      else some w
    | .contentPartDone mid part =>
      if mid = id ∧ isTextPart part then none else some w
    | .outputItemDone mid _ =>
      if mid = id then some { w with closed := true } else some w
    | _ => some w

/-- A wire-event sequence is text-well-formed for `id` when the scan accepts it. -/
def textWf (id : String) (events : List WireEvent) : Bool :=
  (events.foldl (textWfStep id) (some textWfInit)).isSome

/-- Does this wire event (re)record the driver's finish reason? -/
def setsFinishReason : WireEvent → Bool
  | .completed _ _ _ => true
  | .errorEvent _ => true
  | .invalid => true
  | _ => false

/-- Does this wire event touch the text-item state (buffers or active set)
of some identifier? -/
def touchesText : WireEvent → Bool
  | .outputItemAdded (.message _ _) => true
  | .outputItemDone _ _ => true
  | .outputTextDelta _ _ => true
  | .contentPartAdded _ p => isTextPart p
  | .contentPartDone _ p => isTextPart p
  | _ => false

/-- Invariant tying a driver state to the concatenation `c` of the text
deltas emitted so far for identifier `id`, indexed by the well-formedness
scan state: the buffer equals the concatenation; before any delta the
concatenation is empty; and while the item is open it is in the active
set. -/
def TextInv (id : String) (s : DriverState) (c : String) (w : TextWf) : Prop :=
  textBufOf s id = c
  ∧ (w.deltaSeen = false → c = "")
  ∧ (w.added = true → w.closed = false → setHas s.parse.activeTextItems id = true)

/-- The driver state with one summary sub-part's status rewritten (used to
phrase the reasoning lifecycle theorem). -/
def withSummaryStatus (s : DriverState) (id : String) (entry : ReasoningEntry)
    (idx : Nat) (status : SummaryStatus) : DriverState :=
  { s with
      activeReasoning := mapSet s.activeReasoning id
        ({ entry with summaryParts := regSet entry.summaryParts idx status }) }

/-! ## Helper lemmas -/

theorem mapGet_mapSet_self {α : Type} (m : List (String × α)) (k : String) (v : α) :
    mapGet (mapSet m k v) k = some v := by
  induction m with
  | nil => simp [mapGet, mapSet]
  | cons hd tl ih =>
    obtain ⟨k0, v0⟩ := hd
    by_cases h : k0 = k
    · simp [mapGet, mapSet, h]
    · simp [mapGet, mapSet, h, ih]

theorem mapGet_mapSet_ne {α : Type} (m : List (String × α)) (k key : String) (v : α)
    (h : key ≠ k) : mapGet (mapSet m key v) k = mapGet m k := by
  induction m with
  | nil => simp [mapGet, mapSet, h]
  | cons hd tl ih =>
    obtain ⟨k0, v0⟩ := hd
    by_cases h0 : k0 = key
    · subst h0
      simp [mapGet, mapSet, h]
    · simp only [mapSet, if_neg h0]
      by_cases h1 : k0 = k
      · simp [mapGet, h1]
      · simp [mapGet, h1, ih]

theorem isToolCallComplete_exists_buffer (id : String) (st : NordlysStreamState)
    (h : isToolCallComplete id st = true) :
    ∃ tc, mapGet st.toolCallBuffers id = some tc ∧ jsonParses tc.arguments = true := by
  unfold isToolCallComplete at h
  cases hb : mapGet st.toolCallBuffers id with
  | none => rw [hb] at h; exact absurd h (by simp)
  | some tc => rw [hb] at h; exact ⟨tc, rfl, h⟩

/-! ## Claim theorems -/

/-- **C9**: in usage extraction at stream end, the no-cache input count and
the text output count are `total − subcategory` exactly when the cached /
reasoning subcategory is supplied and absent otherwise; a subcategory
exceeding its total yields the negative difference unmodified, never
clamped. -/
theorem usage_subtraction_policy (u : NordlysUsage) :
    (∀ c, u.cachedTokens = some c →
      (extractUsageFromCompleted (some u)).inputNoCache = some (u.inputTokens - c))
    ∧ (u.cachedTokens = none → (extractUsageFromCompleted (some u)).inputNoCache = none)
    ∧ (∀ r, u.reasoningTokens = some r →
      (extractUsageFromCompleted (some u)).outputText = some (u.outputTokens - r))
    ∧ (u.reasoningTokens = none → (extractUsageFromCompleted (some u)).outputText = none)
    ∧ (∀ c, u.cachedTokens = some c → u.inputTokens < c →
        ∃ d, (extractUsageFromCompleted (some u)).inputNoCache = some d ∧ d < 0)
    ∧ (∀ r, u.reasoningTokens = some r → u.outputTokens < r →
        ∃ d, (extractUsageFromCompleted (some u)).outputText = some d ∧ d < 0) := by
  refine ⟨?_, ?_, ?_, ?_, ?_, ?_⟩
  · intro c hc; simp [extractUsageFromCompleted, hc]
  · intro hc; simp [extractUsageFromCompleted, hc]
  · intro r hr; simp [extractUsageFromCompleted, hr]
  · intro hr; simp [extractUsageFromCompleted, hr]
  · intro c hc hlt
    exact ⟨u.inputTokens - c, by simp [extractUsageFromCompleted, hc], by omega⟩
  · intro r hr hlt
    exact ⟨u.outputTokens - r, by simp [extractUsageFromCompleted, hr], by omega⟩

/-- Witness for the usage-subtraction theorem at a concrete corrupt-backend
input (subcategories exceed totals; the negative differences pass through). -/
theorem usage_subtraction_policy_witness :
    (extractUsageFromCompleted
        (some { inputTokens := 1, outputTokens := 2
              , cachedTokens := some 5, reasoningTokens := some 20 })).inputNoCache
        = some (1 - 5)
    ∧ (extractUsageFromCompleted
        (some { inputTokens := 1, outputTokens := 2
              , cachedTokens := some 5, reasoningTokens := some 20 })).outputText
        = some (2 - 20) := by
  have h := usage_subtraction_policy
    { inputTokens := 1, outputTokens := 2, cachedTokens := some 5, reasoningTokens := some 20 }
  exact ⟨h.1 5 rfl, h.2.2.1 20 rfl⟩

/-- **C10**: a backend reasoning output item with an empty summary array
still yields exactly one caller-visible reasoning content item, with empty
text and the item id and verbatim (possibly null) encrypted content; every
reasoning output item yields at least one reasoning content item. -/
theorem reasoning_empty_summary_content (id : String) (enc : Option String)
    (summary : List String) (pre post : List GenOutputPart) :
    doGenerateContentOfPart (.reasoning id [] enc) = [.reasoning "" id enc]
    ∧ 1 ≤ (doGenerateContentOfPart (.reasoning id summary enc)).length
    ∧ doGenerateContent (pre ++ [.reasoning id [] enc] ++ post)
        = doGenerateContent pre ++ [.reasoning "" id enc] ++ doGenerateContent post := by
  refine ⟨rfl, ?_, ?_⟩
  · by_cases h : summary = []
    · simp [doGenerateContentOfPart, h]
    · simp [doGenerateContentOfPart, h]
      exact Nat.one_le_iff_ne_zero.mpr (by simpa using h)
  · simp [doGenerateContent, doGenerateContentOfPart]

/-- **C6**: the message case of `handleOutputItemAdded` on first sight adds
the id to `activeTextItems`, initializes the text buffer to the empty string
and reports a `text-start` — for any content, in particular empty content —
while a duplicate added-event leaves the state unchanged and reports
nothing. -/
theorem message_item_added_idempotent (st : NordlysStreamState) (id : String)
    (content : List ContentPart) :
    (setHas st.activeTextItems id = false →
      handleOutputItemAdded (.message id content) st
        = ({ st with
              activeTextItems := setAdd st.activeTextItems id,
              textBuffers := mapSet st.textBuffers id "" }
          , { emptyAddedResult with shouldEmitTextStart := true, textItemId := some id }))
    ∧ (setHas st.activeTextItems id = true →
      handleOutputItemAdded (.message id content) st = (st, emptyAddedResult)) := by
  constructor
  · intro h; simp [handleOutputItemAdded, h]
  · intro h; simp [handleOutputItemAdded, h]

/-- Witness: the first added-event for a message item with empty content on
the fresh state emits text-start and initializes state; the second is a
no-op. -/
theorem message_item_added_idempotent_witness :
    (handleOutputItemAdded (.message "m1" []) createStreamState).2.shouldEmitTextStart = true
    ∧ (handleOutputItemAdded (.message "m1" []) createStreamState).1.activeTextItems = ["m1"]
    ∧ (handleOutputItemAdded (.message "m1" []) createStreamState).1.textBuffers = [("m1", "")]
    ∧ handleOutputItemAdded (.message "m1" [])
        (handleOutputItemAdded (.message "m1" []) createStreamState).1
      = ((handleOutputItemAdded (.message "m1" []) createStreamState).1, emptyAddedResult) := by
  have h1 := (message_item_added_idempotent createStreamState "m1" []).1 (by decide)
  have hs : setHas (handleOutputItemAdded (.message "m1" []) createStreamState).1.activeTextItems
      "m1" = true := by rw [h1]; decide
  have h2 := (message_item_added_idempotent
    (handleOutputItemAdded (.message "m1" []) createStreamState).1 "m1" []).2 hs
  refine ⟨by rw [h1], by rw [h1]; decide, by rw [h1]; decide, h2⟩

/-- The delta/id components returned by `handleFunctionCallArgumentsDelta`
are always the incoming delta and item id. -/
theorem hfcad_components (i d : String) (st : NordlysStreamState) :
    (handleFunctionCallArgumentsDelta i d st).2 = (d, i) := by
  unfold handleFunctionCallArgumentsDelta
  cases mapGet st.toolCallBuffers i <;> simp

/-- **C1 (amended)**: the early, parse-detected trigger emits `tool-call`
exactly when the accumulated argument buffer parses as JSON; the explicit
`function-call-arguments-done` trigger emits `tool-call` whenever a buffer
exists for the identifier, with no parse check — so a call whose arguments
never become parseable still emits `tool-call` when the explicit done event
arrives. -/
theorem tool_call_trigger_conditions (store : Bool) (s : DriverState) (id d : String) :
    (mapGet s.parse.toolCallBuffers id = none →
      (stepEvent store s (.functionCallArgumentsDone id)).2 = [.toolInputEnd id])
    ∧ (∀ tc, mapGet s.parse.toolCallBuffers id = some tc →
      (stepEvent store s (.functionCallArgumentsDone id)).2
        = [.toolInputEnd id, .toolCall tc.id tc.name tc.arguments])
    ∧ ((∃ a b c, LifecycleEvent.toolCall a b c
          ∈ (stepEvent store s (.functionCallArgumentsDelta id d)).2)
        ↔ isToolCallComplete id (handleFunctionCallArgumentsDelta id d s.parse).1 = true) := by
  refine ⟨?_, ?_, ?_⟩
  · intro h
    simp [stepEvent, getCompletedToolCall, h]
  · intro tc h
    simp [stepEvent, getCompletedToolCall, h]
  · cases hP : handleFunctionCallArgumentsDelta id d s.parse with
    | mk parse1 pr =>
      obtain ⟨d', tid⟩ := pr
      have hpr : (d, id) = (d', tid) := by
        have := hfcad_components id d s.parse
        rw [hP] at this
        exact this.symm
      have hd : d' = d := (Prod.mk.injEq _ _ _ _ ▸ hpr).1.symm
      have ht : tid = id := (Prod.mk.injEq _ _ _ _ ▸ hpr).2.symm
      rw [hd, ht] at hP
      by_cases hc : isToolCallComplete id parse1 = true
      · obtain ⟨tc, hbuf, _⟩ := isToolCallComplete_exists_buffer id parse1 hc
        have hg : getCompletedToolCall id
            { parse1 with activeToolCalls := setDel parse1.activeToolCalls id }
            = some (tc.id, tc.name, tc.arguments) := by
          simp [getCompletedToolCall, hbuf]
        simp only [stepEvent, hP, hc, if_true, hg]
        simp [hc]
      · have hc' : isToolCallComplete id parse1 = false := by
          cases h : isToolCallComplete id parse1
          · rfl
          · exact absurd h hc
        simp only [stepEvent, hP, hc', Bool.false_eq_true, if_false]
        simp [hc']

/-- **C1 counterexample**: a call whose accumulated argument buffer never
parses as JSON still receives a `tool-call` event when the explicit
arguments-done wire event arrives, carrying the unparseable input. -/
theorem tool_call_unparseable_done_counterexample :
    (doStreamRun true
        [.outputItemAdded (.functionCall "c1" "c1" "f" "")
        , .functionCallArgumentsDelta "c1" "\x7b\"a\":"
        , .functionCallArgumentsDone "c1"]).any (isToolCallFor "c1") = true
    ∧ jsonParses "\x7b\"a\":" = false ∧ jsonParses "" = false := by decide

/-- Witness: the explicit-done branch of the trigger theorem applied at the
concrete state reached after the unparseable delta. -/
theorem tool_call_trigger_conditions_witness :
    (stepEvent true
        (finalDriverState true
          [.outputItemAdded (.functionCall "c1" "c1" "f" "")
          , .functionCallArgumentsDelta "c1" "\x7b\"a\":"])
        (.functionCallArgumentsDone "c1")).2
      = [.toolInputEnd "c1", .toolCall "c1" "f" "\x7b\"a\":"] := by
  have h := (tool_call_trigger_conditions true
    (finalDriverState true
      [.outputItemAdded (.functionCall "c1" "c1" "f" "")
      , .functionCallArgumentsDelta "c1" "\x7b\"a\":"]) "c1" "").2.1
    { id := "c1", name := "f", arguments := "\x7b\"a\":" } (by decide)
  rw [h]

/-- **C2 (amended)**: removal from the active set does not gate the explicit
done trigger: even for an identifier no longer in `activeToolCalls` (for
example, after the early parse-detected completion already fired), an
explicit arguments-done event emits `tool-input-end` and `tool-call` again
whenever the buffer still exists — the second trigger is not a no-op. -/
theorem done_trigger_not_gated_by_active_set (store : Bool) (s : DriverState)
    (id : String) (tc : ToolCallBuffer)
    (hinactive : setHas s.parse.activeToolCalls id = false)
    (hbuf : mapGet s.parse.toolCallBuffers id = some tc) :
    (stepEvent store s (.functionCallArgumentsDone id)).2
      = [.toolInputEnd id, .toolCall tc.id tc.name tc.arguments] := by
  simp [stepEvent, getCompletedToolCall, hbuf]

/-- **C2 counterexample**: arguments complete early (`{}` parses), the early
trigger fires, then the explicit done event fires the terminal transition a
second time: two `tool-call` events for the same identifier. -/
theorem tool_call_double_fire_counterexample :
    (doStreamRun true
        [.outputItemAdded (.functionCall "c1" "c1" "f" "")
        , .functionCallArgumentsDelta "c1" "{}"
        , .functionCallArgumentsDone "c1"]).countP (isToolCallFor "c1") = 2 := by decide

/-- Witness: the done-trigger theorem applied at the concrete state after
the early trigger already fired (the id is out of the active set, the buffer
still exists). -/
theorem done_trigger_not_gated_by_active_set_witness :
    setHas (finalDriverState true
        [.outputItemAdded (.functionCall "c1" "c1" "f" "")
        , .functionCallArgumentsDelta "c1" "{}"]).parse.activeToolCalls "c1" = false
    ∧ (stepEvent true
        (finalDriverState true
          [.outputItemAdded (.functionCall "c1" "c1" "f" "")
          , .functionCallArgumentsDelta "c1" "{}"])
        (.functionCallArgumentsDone "c1")).2
      = [.toolInputEnd "c1", .toolCall "c1" "f" "{}"] := by
  have h := done_trigger_not_gated_by_active_set true
    (finalDriverState true
      [.outputItemAdded (.functionCall "c1" "c1" "f" "")
      , .functionCallArgumentsDelta "c1" "{}"]) "c1"
    { id := "c1", name := "f", arguments := "{}" } (by decide) (by decide)
  exact ⟨by decide, by rw [h]⟩

/-- **C3 (code bug)**: the current flush emits only the terminal finish
event: a stream that closes with a message item still open receives no
synthesized `text-end`, and the identifier stays in `activeTextItems` after
finalization — although the transform's own comments state that active-set
removal exists "to prevent duplicate text-end in flush". -/
theorem flush_leaves_active_items_open :
    doStreamRun true [.outputItemAdded (.message "m1" [])]
      = [.streamStart, .textStart "m1"
        , .finish { unified := "other", raw := none } (convertNordlysResponsesUsage none)
            none none]
    ∧ (finalDriverState true [.outputItemAdded (.message "m1" [])]).parse.activeTextItems
        = ["m1"]
    ∧ ∀ s : DriverState, flushDriver s
        = [.finish s.finishReason (convertNordlysResponsesUsage s.usage)
            s.responseId s.serviceTier] :=
  ⟨by decide, by decide, fun _ => rfl⟩

/-- **C4 counterexample**: a `text-delta` for an identifier never started by
an item-added event is forwarded without any synthesized `text-start`. -/
theorem delta_without_start_counterexample :
    doStreamRun true [.outputTextDelta "x" "Hel"]
      = [.streamStart, .textDelta "x" "Hel"
        , .finish { unified := "other", raw := none } (convertNordlysResponsesUsage none)
            none none]
    ∧ ∀ ev ∈ doStreamRun true [.outputTextDelta "x" "Hel"],
        ev ≠ LifecycleEvent.textStart "x" := by decide

/-- **C4 (amended)**: a text (or reasoning) delta for an unstarted identifier
never fails hard — the buffer is created defensively and the `-delta`
lifecycle event carries exactly the incremental text — but no synthesized
`-start` is emitted on the item-level delta path. -/
theorem delta_defensive_no_start (store : Bool) (s : DriverState) (id d : String) :
    (stepEvent store s (.outputTextDelta id d)).2 = [.textDelta id d]
    ∧ textBufOf (stepEvent store s (.outputTextDelta id d)).1 id = textBufOf s id ++ d
    ∧ (stepEvent store s (.reasoningTextDelta id d)).2 = [.reasoningDelta id d] := by
  refine ⟨rfl, ?_, rfl⟩
  simp [stepEvent, handleTextDelta, textBufOf, mapGet_mapSet_self]

/-- No transform step ever emits a finish event. -/
theorem step_no_finish (store : Bool) (s : DriverState) (e : WireEvent) :
    ((stepEvent store s e).2.countP isFinishEv) = 0 := by
  cases e <;>
    simp only [stepEvent] <;>
    (repeat' split) <;>
    simp [isFinishEv, List.countP_cons, List.countP_append, List.countP_map,
      List.countP_eq_zero]

/-- Transform outputs accumulated over a whole run contain no finish event. -/
theorem runEvents_no_finish (store : Bool) (s : DriverState) (events : List WireEvent) :
    ((runEvents store s events).2.countP isFinishEv) = 0 := by
  induction events generalizing s with
  | nil => simp [runEvents]
  | cons e rest ih =>
    simp only [runEvents]
    cases hstep : stepEvent store s e with
    | mk s1 out1 =>
      cases hrun : runEvents store s1 rest with
      | mk s2 out2 =>
        have h1 := step_no_finish store s e
        rw [hstep] at h1
        have h2 := ih s1
        rw [hrun] at h2
        simp [List.countP_append, h1, h2]

/-- A step on a wire event that does not record a finish reason leaves the
recorded finish reason unchanged. -/
theorem step_preserves_finishReason (store : Bool) (s : DriverState) (e : WireEvent)
    (h : setsFinishReason e = false) :
    (stepEvent store s e).1.finishReason = s.finishReason := by
  cases e <;>
    first
      | (simp only [stepEvent] <;> (repeat' split) <;> rfl)
      | (exact absurd h (by simp [setsFinishReason]))

/-- A whole run over events that never record a finish reason leaves the
initial driver finish reason in place. -/
theorem runEvents_preserves_finishReason (store : Bool) (s : DriverState)
    (events : List WireEvent) (h : ∀ e ∈ events, setsFinishReason e = false) :
    (runEvents store s events).1.finishReason = s.finishReason := by
  induction events generalizing s with
  | nil => simp [runEvents]
  | cons e rest ih =>
    simp only [runEvents]
    cases hstep : stepEvent store s e with
    | mk s1 out1 =>
      have hpres := step_preserves_finishReason store s e (h e (by simp))
      rw [hstep] at hpres
      have := ih (fun x hx => h x (by simp [hx])) (s := s1)
      cases hrun : runEvents store s1 rest with
      | mk s2 out2 =>
        rw [hrun] at this
        simp only []
        rw [this, hpres]

/-- **C5 (amended)**: every stream emits exactly one terminal finish
lifecycle event, always last, carrying the last-known finish reason — which
defaults to `other` (not `stop`) when the stream closed with no terminal
event and no error — together with the converted recorded usage and the
collected provider metadata (response id, service tier). -/
theorem single_finish_always_last (store : Bool) (events : List WireEvent) :
    (doStreamRun store events).countP isFinishEv = 1
    ∧ (doStreamRun store events).getLast?
        = some (.finish (finalDriverState store events).finishReason
            (convertNordlysResponsesUsage (finalDriverState store events).usage)
            (finalDriverState store events).responseId
            (finalDriverState store events).serviceTier)
    ∧ ((∀ e ∈ events, setsFinishReason e = false) →
        (finalDriverState store events).finishReason = { unified := "other", raw := none }) := by
  refine ⟨?_, ?_, ?_⟩
  · have h := runEvents_no_finish store initialDriverState events
    simp [doStreamRun, flushDriver, List.countP_cons, List.countP_append, h,
      isFinishEv, finalDriverState]
  · show (LifecycleEvent.streamStart :: (runEvents store initialDriverState events).2
        ++ flushDriver (finalDriverState store events)).getLast? = _
    rw [flushDriver, List.cons_append]
    rw [show LifecycleEvent.streamStart ::
        ((runEvents store initialDriverState events).2
          ++ [LifecycleEvent.finish (finalDriverState store events).finishReason
              (convertNordlysResponsesUsage (finalDriverState store events).usage)
              (finalDriverState store events).responseId
              (finalDriverState store events).serviceTier])
        = (LifecycleEvent.streamStart :: (runEvents store initialDriverState events).2)
          ++ [LifecycleEvent.finish (finalDriverState store events).finishReason
              (convertNordlysResponsesUsage (finalDriverState store events).usage)
              (finalDriverState store events).responseId
              (finalDriverState store events).serviceTier] by simp]
    exact List.getLast?_concat _
  · intro h
    have := runEvents_preserves_finishReason store initialDriverState events h
    simpa [finalDriverState, initialDriverState] using this

/-- Witness: on the empty stream (no terminal event, no error) the finish
reason defaults to `other`, and exactly one finish event is emitted. -/
theorem single_finish_always_last_witness :
    (finalDriverState true []).finishReason = { unified := "other", raw := none }
    ∧ (doStreamRun true []).countP isFinishEv = 1 := by
  have h := single_finish_always_last true []
  exact ⟨h.2.2 (by simp), h.1⟩

/-- **C5 counterexample**: a stream that closes with no explicit terminal
event and no error carries finish reason `other`, not `stop`. -/
theorem default_finish_reason_counterexample :
    doStreamRun true []
      = [.streamStart
        , .finish { unified := "other", raw := none } (convertNordlysResponsesUsage none)
            none none]
    ∧ ({ unified := "other", raw := none } : FinishReason)
        ≠ { unified := "stop", raw := none } := by decide

/-- **C7**: for a reasoning item with an active registry entry,
`reasoning_summary_part.done` with persistence disabled marks the sub-part
`can-conclude` and emits nothing, while with persistence enabled it emits
`reasoning-end` immediately and marks the sub-part `concluded`; the deferred
ends are emitted exactly by the two other transitions: a later
`reasoning_summary_part.added` emits `reasoning-end` for every sub-part
marked `can-conclude` (ascending) before the new sub-part's
`reasoning-start`, and `output_item.done` emits `reasoning-end` for every
sub-part still `active` or `can-conclude`; no other wire-event kind ever
emits a `reasoning-end`. -/
theorem reasoning_summary_part_lifecycle (store : Bool) (s : DriverState)
    (id : String) (idx : Nat) (entry : ReasoningEntry)
    (h : mapGet s.activeReasoning id = some entry) :
    (stepEvent false s (.reasoningSummaryPartDone id idx)
       = (withSummaryStatus s id entry idx .canConclude, []))
    ∧ (stepEvent true s (.reasoningSummaryPartDone id idx)
       = (withSummaryStatus s id entry idx .concluded, [.reasoningEnd (subId id idx)]))
    ∧ (0 < idx →
        (stepEvent store s (.reasoningSummaryPartAdded id idx)).2
          = ((regSet entry.summaryParts idx .active).filter
              (fun p => p.2 = SummaryStatus.canConclude)).map
              (fun p => LifecycleEvent.reasoningEnd (subId id p.1))
            ++ [.reasoningStart (subId id idx)])
    ∧ (mapGet s.itemTypes id = some ItemKind.reasoning →
        (stepEvent store s (.outputItemDone id .reasoning)).2
          = (entry.summaryParts.filter
              (fun p => p.2 = SummaryStatus.active ∨ p.2 = SummaryStatus.canConclude)).map
              (fun p => LifecycleEvent.reasoningEnd (subId id p.1)))
    ∧ (∀ (b : Bool) (st : DriverState) (e : WireEvent), mayEmitReasoningEnd e = false →
        ((stepEvent b st e).2.countP (fun x =>
          match x with
          | LifecycleEvent.reasoningEnd _ => true
          | _ => false)) = 0) := by
  refine ⟨?_, ?_, ?_, ?_, ?_⟩
  · simp [stepEvent, h, withSummaryStatus]
  · simp [stepEvent, h, withSummaryStatus]
  · intro hpos
    simp [stepEvent, h, hpos, List.map_map]
  · intro hk
    simp [stepEvent, h, hk, List.map_map]
  · intro b st e he
    cases e <;>
      first
        | ((simp only [stepEvent] <;> (repeat' split) <;>
            simp [List.countP_cons, List.countP_append, List.countP_map,
              List.countP_eq_zero]); done)
        | (exact absurd he (by simp [mayEmitReasoningEnd]))

/-- Witness: the reasoning lifecycle theorem applied along the concrete
two-sub-part, persistence-disabled scenario — part 0's done defers its end,
the arrival of part 1 emits the deferred `reasoning-end` before part 1's
`reasoning-start`, item-done concludes what remains, and with persistence
enabled the end is immediate. -/
theorem reasoning_summary_part_lifecycle_witness :
    (stepEvent false
        (finalDriverState false [.outputItemAdded (.reasoning "r1" none)])
        (.reasoningSummaryPartDone "r1" 0)).2 = []
    ∧ (stepEvent false
        (finalDriverState false
          [.outputItemAdded (.reasoning "r1" none), .reasoningSummaryPartDone "r1" 0])
        (.reasoningSummaryPartAdded "r1" 1)).2
      = [.reasoningEnd "r1:0", .reasoningStart "r1:1"]
    ∧ (stepEvent false
        (finalDriverState false
          [.outputItemAdded (.reasoning "r1" none), .reasoningSummaryPartDone "r1" 0])
        (.outputItemDone "r1" .reasoning)).2
      = [.reasoningEnd "r1:0"]
    ∧ (stepEvent true
        (finalDriverState false [.outputItemAdded (.reasoning "r1" none)])
        (.reasoningSummaryPartDone "r1" 0)).2
      = [.reasoningEnd "r1:0"] := by
  have h0 := reasoning_summary_part_lifecycle false
    (finalDriverState false [.outputItemAdded (.reasoning "r1" none)]) "r1" 0
    { encryptedContent := none, summaryParts := [(0, .active)] } (by decide)
  have h1 := reasoning_summary_part_lifecycle false
    (finalDriverState false
      [.outputItemAdded (.reasoning "r1" none), .reasoningSummaryPartDone "r1" 0]) "r1" 1
    { encryptedContent := none, summaryParts := [(0, .canConclude)] } (by decide)
  refine ⟨by rw [h0.1], ?_, ?_, ?_⟩
  · rw [h1.2.2.1 (by decide)]; decide
  · rw [h1.2.2.2.1 (by decide)]; decide
  · rw [h0.2.1]; decide

/-! ## Buffer-equals-concatenation machinery (C8) -/

theorem setHas_setAdd_self (l : List String) (x : String) :
    setHas (setAdd l x) x = true := by
  simp only [setAdd]
  split
  · assumption
  · simp [setHas]

theorem setHas_setAdd_ne (l : List String) (x y : String) (h : y ≠ x) :
    setHas (setAdd l x) y = setHas l y := by
  simp only [setAdd]
  split
  · rfl
  · simp [setHas, h]

theorem setHas_setDel_ne (l : List String) (x y : String) (h : y ≠ x) :
    setHas (setDel l x) y = setHas l y := by
  induction l with
  | nil => rfl
  | cons a rest ih =>
    simp only [setDel, setHas] at ih ⊢
    rw [List.filter_cons]
    by_cases ha : a = x
    · subst ha
      simp [List.contains_cons, h, ih]
    · simp [ha, List.contains_cons, ih, h]

theorem textDeltasConcat_append (id : String) (l1 l2 : List LifecycleEvent) :
    textDeltasConcat id (l1 ++ l2)
      = textDeltasConcat id l1 ++ textDeltasConcat id l2 := by
  induction l1 with
  | nil => simp [textDeltasConcat]
  | cons x rest ih =>
    cases x <;> simp [textDeltasConcat, ih, String.append_assoc]

theorem textDeltasConcat_of_countP_zero (id : String) (l : List LifecycleEvent)
    (h : l.countP (fun x =>
        match x with
        | LifecycleEvent.textDelta _ _ => true
        | _ => false) = 0) :
    textDeltasConcat id l = "" := by
  induction l with
  | nil => rfl
  | cons x rest ih =>
    rw [List.countP_cons] at h
    cases x <;> simp_all [textDeltasConcat]

/-- A wire event that does not touch text-item state leaves `textBuffers`
and `activeTextItems` unchanged and emits no `text-delta`. -/
theorem step_text_untouched (store : Bool) (s : DriverState) (e : WireEvent)
    (h : touchesText e = false) :
    (stepEvent store s e).1.parse.textBuffers = s.parse.textBuffers
    ∧ (stepEvent store s e).1.parse.activeTextItems = s.parse.activeTextItems
    ∧ ((stepEvent store s e).2.countP (fun x =>
        match x with
        | LifecycleEvent.textDelta _ _ => true
        | _ => false)) = 0 := by
  cases e with
  | outputItemAdded item =>
    cases item with
    | message id content => exact absurd h (by simp [touchesText])
    | reasoning id enc =>
      refine ⟨?_, ?_, ?_⟩ <;>
        (simp only [stepEvent, handleOutputItemAdded] <;> (repeat' split) <;>
          simp [List.countP_cons, List.countP_eq_zero])
    | functionCall a b c d =>
      refine ⟨?_, ?_, ?_⟩ <;>
        (simp only [stepEvent, handleOutputItemAdded] <;> (repeat' split) <;>
          simp [List.countP_cons, List.countP_eq_zero])
  | contentPartAdded mid part =>
    cases part with
    | outputText t => exact absurd h (by simp [touchesText, isTextPart])
    | refusal t => exact absurd h (by simp [touchesText, isTextPart])
    | reasoningText t =>
      refine ⟨?_, ?_, ?_⟩ <;>
        (simp only [stepEvent, handleContentPartAdded] <;> (repeat' split) <;>
          simp_all [List.countP_cons, List.countP_eq_zero, emptyPartAddedResult])
  | contentPartDone mid part =>
    cases part with
    | outputText t => exact absurd h (by simp [touchesText, isTextPart])
    | refusal t => exact absurd h (by simp [touchesText, isTextPart])
    | reasoningText t =>
      refine ⟨?_, ?_, ?_⟩ <;>
        (simp only [stepEvent, handleContentPartDone] <;> (repeat' split) <;>
          simp_all [List.countP_cons, List.countP_eq_zero, emptyPartDoneResult])
  | outputItemDone a b => exact absurd h (by simp [touchesText])
  | outputTextDelta a b => exact absurd h (by simp [touchesText])
  | created a b c =>
    exact ⟨rfl, rfl, rfl⟩
  | outputTextDone a b => exact ⟨rfl, rfl, rfl⟩
  | reasoningTextDelta a b =>
    refine ⟨?_, ?_, ?_⟩ <;> simp [stepEvent, handleReasoningDelta, List.countP_cons]
  | functionCallArgumentsDelta a b =>
    refine ⟨?_, ?_, ?_⟩ <;>
      (simp only [stepEvent, handleFunctionCallArgumentsDelta] <;> (repeat' split) <;>
        simp [List.countP_cons, List.countP_append, List.countP_eq_zero])
  | functionCallArgumentsDone a =>
    refine ⟨?_, ?_, ?_⟩ <;>
      (simp only [stepEvent] <;> (repeat' split) <;>
        simp [List.countP_cons, List.countP_eq_zero])
  | reasoningSummaryPartAdded a b =>
    refine ⟨?_, ?_, ?_⟩ <;>
      (simp only [stepEvent] <;> (repeat' split) <;>
        simp [List.countP_cons, List.countP_append, List.countP_map, List.countP_eq_zero])
  | reasoningSummaryTextDelta a b c =>
    refine ⟨?_, ?_, ?_⟩ <;> simp [stepEvent, List.countP_cons]
  | reasoningSummaryTextDone a b c => exact ⟨rfl, rfl, rfl⟩
  | reasoningSummaryPartDone a b =>
    refine ⟨?_, ?_, ?_⟩ <;>
      (simp only [stepEvent] <;> (repeat' split) <;>
        simp [List.countP_cons, List.countP_eq_zero])
  | completed a b c =>
    refine ⟨?_, ?_, ?_⟩ <;>
      (simp only [stepEvent] <;> (repeat' split) <;> simp)
  | errorEvent a =>
    refine ⟨?_, ?_, ?_⟩ <;> simp [stepEvent, List.countP_cons]
  | invalid =>
    refine ⟨?_, ?_, ?_⟩ <;> simp [stepEvent, List.countP_cons]

/-- The well-formedness scan is the identity on events that do not touch
text state. -/
theorem textWfStep_untouched (id : String) (w : TextWf) (e : WireEvent)
    (h : touchesText e = false) : textWfStep id (some w) e = some w := by
  cases e <;> try rfl
  case outputItemAdded item =>
    cases item with
    | message a b => simp [touchesText] at h
    | reasoning a b => rfl
    | functionCall a b c d => rfl
  case outputItemDone a b => simp [touchesText] at h
  case outputTextDelta a b => simp [touchesText] at h
  case contentPartAdded mid part =>
    cases part with
    | outputText t => simp [touchesText, isTextPart] at h
    | refusal t => simp [touchesText, isTextPart] at h
    | reasoningText t => simp [textWfStep, isTextPart]
  case contentPartDone mid part =>
    cases part with
    | outputText t => simp [touchesText, isTextPart] at h
    | refusal t => simp [touchesText, isTextPart] at h
    | reasoningText t => simp [textWfStep, isTextPart]

/-- Invariant preservation, item-level text delta case. -/
theorem textInv_step_textDelta (store : Bool) (id : String) (s : DriverState)
    (c : String) (w w' : TextWf) (mid d : String)
    (hw : textWfStep id (some w) (.outputTextDelta mid d) = some w')
    (hinv : TextInv id s c w) :
    TextInv id (stepEvent store s (.outputTextDelta mid d)).1
      (c ++ textDeltasConcat id (stepEvent store s (.outputTextDelta mid d)).2) w' := by
  obtain ⟨hbuf, hds, hact⟩ := hinv
  by_cases hm : mid = id
  · subst hm
    by_cases hcl : w.closed = false
    · have hw1 : w' = { added := w.added, deltaSeen := true, closed := false } := by
        simp [textWfStep, hcl] at hw
        exact hw.symm
      subst hw1
      refine ⟨?_, ?_, ?_⟩
      · simp only [stepEvent, handleTextDelta, textDeltasConcat]
        unfold textBufOf at hbuf ⊢
        simp [mapGet_mapSet_self, hbuf, String.append_empty]
      · intro hfalse; simp at hfalse
      · intro ha _
        simp only [stepEvent, handleTextDelta]
        exact hact ha hcl
    · have : False := by simp [textWfStep, hcl] at hw
      exact this.elim
  · simp only [textWfStep, if_neg hm] at hw
    have hw2 : w' = w := by simpa using hw.symm
    subst hw2
    refine ⟨?_, ?_, ?_⟩
    · simp only [stepEvent, handleTextDelta, textDeltasConcat]
      unfold textBufOf at hbuf ⊢
      simp [mapGet_mapSet_ne _ _ _ _ hm, hbuf, if_neg hm, String.append_empty]
    · intro hd2
      simp only [stepEvent, textDeltasConcat, if_neg hm]
      simp [String.append_empty, hds hd2]
    · intro ha hc
      simp only [stepEvent, handleTextDelta]
      exact hact ha hc

/-- Invariant preservation, message item-added case. -/
theorem textInv_step_messageAdded (store : Bool) (id : String) (s : DriverState)
    (c : String) (w w' : TextWf) (mid : String) (content : List ContentPart)
    (hw : textWfStep id (some w) (.outputItemAdded (.message mid content)) = some w')
    (hinv : TextInv id s c w) :
    TextInv id (stepEvent store s (.outputItemAdded (.message mid content))).1
      (c ++ textDeltasConcat id
        (stepEvent store s (.outputItemAdded (.message mid content))).2) w' := by
  obtain ⟨hbuf, hds, hact⟩ := hinv
  by_cases hm : mid = id
  · subst hm
    by_cases hg : w.added = false ∧ w.deltaSeen = false ∧ w.closed = false
    · have hw1 : w' = { added := true, deltaSeen := false, closed := false } := by
        simp [textWfStep, hg.1, hg.2.1, hg.2.2] at hw
        exact hw.symm
      subst hw1
      have hc0 : c = "" := hds hg.2.1
      subst hc0
      by_cases hhas : setHas s.parse.activeTextItems mid = true
      · refine ⟨?_, ?_, ?_⟩
        · simp only [stepEvent, handleOutputItemAdded, hhas, if_true, textDeltasConcat]
          simpa [textDeltasConcat] using hbuf
        · intro _
          simp only [stepEvent, handleOutputItemAdded, hhas, if_true, textDeltasConcat]
          rfl
        · intro _ _
          simp [stepEvent, handleOutputItemAdded, hhas]
      · have hhas' : setHas s.parse.activeTextItems mid = false := by simpa using hhas
        refine ⟨?_, ?_, ?_⟩
        · simp only [stepEvent, handleOutputItemAdded, hhas', Bool.false_eq_true, if_false,
            textDeltasConcat]
          unfold textBufOf
          simp [mapGet_mapSet_self, textDeltasConcat]
        · intro _
          simp only [stepEvent, handleOutputItemAdded, hhas', Bool.false_eq_true, if_false,
            textDeltasConcat]
          rfl
        · intro _ _
          simp only [stepEvent, handleOutputItemAdded, hhas', Bool.false_eq_true, if_false]
          exact setHas_setAdd_self _ _
    · have : False := by simp [textWfStep, hg] at hw
      exact this.elim
  · have hw1 : w' = w := by
      simp [textWfStep, hm] at hw
      exact hw.symm
    subst hw1
    have hmid : id ≠ mid := fun hh => hm hh.symm
    by_cases hhas : setHas s.parse.activeTextItems mid = true
    · refine ⟨?_, ?_, ?_⟩
      · simp only [stepEvent, handleOutputItemAdded, hhas, if_true, textDeltasConcat]
        simpa [textDeltasConcat] using hbuf
      · intro hd2
        simp only [stepEvent, handleOutputItemAdded, hhas, if_true, textDeltasConcat]
        simp [hds hd2]
      · intro ha hc2
        simp only [stepEvent, handleOutputItemAdded, hhas, if_true]
        exact hact ha hc2
    · have hhas' : setHas s.parse.activeTextItems mid = false := by simpa using hhas
      refine ⟨?_, ?_, ?_⟩
      · simp only [stepEvent, handleOutputItemAdded, hhas', Bool.false_eq_true, if_false,
          textDeltasConcat]
        unfold textBufOf at hbuf ⊢
        simp [mapGet_mapSet_ne _ _ _ _ hm, hbuf, textDeltasConcat]
      · intro hd2
        simp only [stepEvent, handleOutputItemAdded, hhas', Bool.false_eq_true, if_false,
          textDeltasConcat]
        simp [hds hd2]
      · intro ha hc2
        simp only [stepEvent, handleOutputItemAdded, hhas', Bool.false_eq_true, if_false]
        rw [setHas_setAdd_ne _ _ _ hmid]
        exact hact ha hc2

/-- Invariant preservation for events that do not touch text state. -/
theorem textInv_step_untouched (store : Bool) (id : String) (s : DriverState)
    (c : String) (w w' : TextWf) (e : WireEvent)
    (ht : touchesText e = false)
    (hw : textWfStep id (some w) e = some w')
    (hinv : TextInv id s c w) :
    TextInv id (stepEvent store s e).1
      (c ++ textDeltasConcat id (stepEvent store s e).2) w' := by
  obtain ⟨hbuf, hds, hact⟩ := hinv
  have hww : w' = w := by
    have h2 := textWfStep_untouched id w e ht
    rw [h2] at hw
    simpa using hw.symm
  subst hww
  obtain ⟨h1, h2, h3⟩ := step_text_untouched store s e ht
  have hcz : textDeltasConcat id (stepEvent store s e).2 = "" :=
    textDeltasConcat_of_countP_zero id _ h3
  refine ⟨?_, ?_, ?_⟩
  · rw [hcz, String.append_empty]
    unfold textBufOf at hbuf ⊢
    rw [h1]; exact hbuf
  · intro hd2; rw [hcz, String.append_empty]; exact hds hd2
  · intro ha hc2; rw [h2]; exact hact ha hc2

/-- Invariant preservation, content-part-added case, text-carrying parts. -/
theorem textInv_step_partAdded (store : Bool) (id : String) (s : DriverState)
    (c : String) (w w' : TextWf) (mid : String) (part : ContentPart)
    (hw : textWfStep id (some w) (.contentPartAdded mid part) = some w')
    (hinv : TextInv id s c w) :
    TextInv id (stepEvent store s (.contentPartAdded mid part)).1
      (c ++ textDeltasConcat id (stepEvent store s (.contentPartAdded mid part)).2) w' := by
  obtain ⟨hbuf, hds, hact⟩ := hinv
  cases part with
  | reasoningText t =>
    exact textInv_step_untouched store id s c w w' _
      (by simp [touchesText, isTextPart]) hw ⟨hbuf, hds, hact⟩
  | outputText t =>
    by_cases hm : mid = id
    · subst hm
      by_cases hg : w.closed = false ∧ (w.added = true ∨ w.deltaSeen = false)
      · have hw1 : w' = { added := true, deltaSeen := true, closed := false } := by
          simp [textWfStep, isTextPart, hg] at hw
          exact hw.symm
        subst hw1
        by_cases hhas : setHas s.parse.activeTextItems mid = true
        · refine ⟨?_, ?_, ?_⟩
          · simp only [stepEvent, handleContentPartAdded, hhas]
            unfold textBufOf at hbuf ⊢
            by_cases ht0 : t = ""
            · subst ht0
              simp [mapGet_mapSet_self, hbuf, textDeltasConcat]
            · simp [mapGet_mapSet_self, hbuf, ht0, textDeltasConcat, String.append_assoc]
          · intro hfalse; exact absurd hfalse (by simp)
          · intro _ _
            simp [stepEvent, handleContentPartAdded, hhas]
        · have hhas' : setHas s.parse.activeTextItems mid = false := by simpa using hhas
          have haddf : w.added = false := by
            cases haw : w.added
            · rfl
            · exact absurd (hact haw hg.1) (by simp [hhas'])
          have hdsf : w.deltaSeen = false := by
            rcases hg.2 with h | h
            · rw [haddf] at h; exact absurd h (by simp)
            · exact h
          have hc0 : c = "" := hds hdsf
          subst hc0
          refine ⟨?_, ?_, ?_⟩
          · simp only [stepEvent, handleContentPartAdded, hhas']
            unfold textBufOf
            by_cases ht0 : t = ""
            · subst ht0
              simp [mapGet_mapSet_self, textDeltasConcat]
            · simp [mapGet_mapSet_self, ht0, textDeltasConcat]
          · intro hfalse; exact absurd hfalse (by simp)
          · intro _ _
            simp [stepEvent, handleContentPartAdded, hhas', setHas_setAdd_self]
      · have : False := by simp [textWfStep, isTextPart, hg] at hw
        exact this.elim
    · have hw1 : w' = w := by
        simp [textWfStep, isTextPart, hm] at hw
        exact hw.symm
      subst hw1
      have hmid : id ≠ mid := fun hh => hm hh.symm
      refine ⟨?_, ?_, ?_⟩
      · simp only [stepEvent, handleContentPartAdded]
        unfold textBufOf at hbuf ⊢
        by_cases hhas : setHas s.parse.activeTextItems mid = true
        · by_cases ht0 : t = ""
          · subst ht0
            simp [hhas, mapGet_mapSet_ne _ _ _ _ hm, hbuf, textDeltasConcat]
          · simp [hhas, mapGet_mapSet_ne _ _ _ _ hm, hbuf, ht0, textDeltasConcat, hm]
        · have hhas' : setHas s.parse.activeTextItems mid = false := by simpa using hhas
          by_cases ht0 : t = ""
          · subst ht0
            simp [hhas', mapGet_mapSet_ne _ _ _ _ hm, hbuf, textDeltasConcat]
          · simp [hhas', mapGet_mapSet_ne _ _ _ _ hm, hbuf, ht0, textDeltasConcat, hm]
      · intro hd2
        simp only [stepEvent, handleContentPartAdded]
        by_cases hhas : setHas s.parse.activeTextItems mid = true
        · by_cases ht0 : t = ""
          · subst ht0; simp [hhas, textDeltasConcat, hds hd2]
          · simp [hhas, ht0, textDeltasConcat, hds hd2, hm]
        · have hhas' : setHas s.parse.activeTextItems mid = false := by simpa using hhas
          by_cases ht0 : t = ""
          · subst ht0; simp [hhas', textDeltasConcat, hds hd2]
          · simp [hhas', ht0, textDeltasConcat, hds hd2, hm]
      · intro ha hc2
        simp only [stepEvent, handleContentPartAdded]
        by_cases hhas : setHas s.parse.activeTextItems mid = true
        · simp [hhas]
          exact hact ha hc2
        · have hhas' : setHas s.parse.activeTextItems mid = false := by simpa using hhas
          simp [hhas', setHas_setAdd_ne _ _ _ hmid]
          exact hact ha hc2
  | refusal t =>
    by_cases hm : mid = id
    · subst hm
      by_cases hg : w.closed = false ∧ (w.added = true ∨ w.deltaSeen = false)
      · have hw1 : w' = { added := true, deltaSeen := true, closed := false } := by
          simp [textWfStep, isTextPart, hg] at hw
          exact hw.symm
        subst hw1
        by_cases hhas : setHas s.parse.activeTextItems mid = true
        · refine ⟨?_, ?_, ?_⟩
          · simp only [stepEvent, handleContentPartAdded, hhas]
            unfold textBufOf at hbuf ⊢
            by_cases ht0 : t = ""
            · subst ht0
              simp [mapGet_mapSet_self, hbuf, textDeltasConcat]
            · simp [mapGet_mapSet_self, hbuf, ht0, textDeltasConcat, String.append_assoc]
          · intro hfalse; exact absurd hfalse (by simp)
          · intro _ _
            simp [stepEvent, handleContentPartAdded, hhas]
        · have hhas' : setHas s.parse.activeTextItems mid = false := by simpa using hhas
          have haddf : w.added = false := by
            cases haw : w.added
            · rfl
            · exact absurd (hact haw hg.1) (by simp [hhas'])
          have hdsf : w.deltaSeen = false := by
            rcases hg.2 with h | h
            · rw [haddf] at h; exact absurd h (by simp)
            · exact h
          have hc0 : c = "" := hds hdsf
          subst hc0
          refine ⟨?_, ?_, ?_⟩
          · simp only [stepEvent, handleContentPartAdded, hhas']
            unfold textBufOf
            by_cases ht0 : t = ""
            · subst ht0
              simp [mapGet_mapSet_self, textDeltasConcat]
            · simp [mapGet_mapSet_self, ht0, textDeltasConcat]
          · intro hfalse; exact absurd hfalse (by simp)
          · intro _ _
            simp [stepEvent, handleContentPartAdded, hhas', setHas_setAdd_self]
      · have : False := by simp [textWfStep, isTextPart, hg] at hw
        exact this.elim
    · have hw1 : w' = w := by
        simp [textWfStep, isTextPart, hm] at hw
        exact hw.symm
      subst hw1
      have hmid : id ≠ mid := fun hh => hm hh.symm
      refine ⟨?_, ?_, ?_⟩
      · simp only [stepEvent, handleContentPartAdded]
        unfold textBufOf at hbuf ⊢
        by_cases hhas : setHas s.parse.activeTextItems mid = true
        · by_cases ht0 : t = ""
          · subst ht0
            simp [hhas, mapGet_mapSet_ne _ _ _ _ hm, hbuf, textDeltasConcat]
          · simp [hhas, mapGet_mapSet_ne _ _ _ _ hm, hbuf, ht0, textDeltasConcat, hm]
        · have hhas' : setHas s.parse.activeTextItems mid = false := by simpa using hhas
          by_cases ht0 : t = ""
          · subst ht0
            simp [hhas', mapGet_mapSet_ne _ _ _ _ hm, hbuf, textDeltasConcat]
          · simp [hhas', mapGet_mapSet_ne _ _ _ _ hm, hbuf, ht0, textDeltasConcat, hm]
      · intro hd2
        simp only [stepEvent, handleContentPartAdded]
        by_cases hhas : setHas s.parse.activeTextItems mid = true
        · by_cases ht0 : t = ""
          · subst ht0; simp [hhas, textDeltasConcat, hds hd2]
          · simp [hhas, ht0, textDeltasConcat, hds hd2, hm]
        · have hhas' : setHas s.parse.activeTextItems mid = false := by simpa using hhas
          by_cases ht0 : t = ""
          · subst ht0; simp [hhas', textDeltasConcat, hds hd2]
          · simp [hhas', ht0, textDeltasConcat, hds hd2, hm]
      · intro ha hc2
        simp only [stepEvent, handleContentPartAdded]
        by_cases hhas : setHas s.parse.activeTextItems mid = true
        · simp [hhas]
          exact hact ha hc2
        · have hhas' : setHas s.parse.activeTextItems mid = false := by simpa using hhas
          simp [hhas', setHas_setAdd_ne _ _ _ hmid]
          exact hact ha hc2

/-- Invariant preservation, content-part-done case. -/
theorem textInv_step_partDone (store : Bool) (id : String) (s : DriverState)
    (c : String) (w w' : TextWf) (mid : String) (part : ContentPart)
    (hw : textWfStep id (some w) (.contentPartDone mid part) = some w')
    (hinv : TextInv id s c w) :
    TextInv id (stepEvent store s (.contentPartDone mid part)).1
      (c ++ textDeltasConcat id (stepEvent store s (.contentPartDone mid part)).2) w' := by
  obtain ⟨hbuf, hds, hact⟩ := hinv
  cases part with
  | reasoningText t =>
    exact textInv_step_untouched store id s c w w' _
      (by simp [touchesText, isTextPart]) hw ⟨hbuf, hds, hact⟩
  | outputText t =>
    by_cases hm : mid = id
    · subst hm
      have : False := by simp [textWfStep, isTextPart] at hw
      exact this.elim
    · have hw1 : w' = w := by
        simp [textWfStep, isTextPart, hm] at hw
        exact hw.symm
      subst hw1
      refine ⟨?_, ?_, ?_⟩
      · simp only [stepEvent, handleContentPartDone]
        unfold textBufOf at hbuf ⊢
        by_cases ht0 : t = ""
        · subst ht0; simp [hbuf, textDeltasConcat, emptyPartDoneResult]
        · simp [ht0, mapGet_mapSet_ne _ _ _ _ hm, hbuf, textDeltasConcat, emptyPartDoneResult]
      · intro hd2
        simp only [stepEvent, handleContentPartDone]
        by_cases ht0 : t = ""
        · subst ht0; simp [textDeltasConcat, hds hd2, emptyPartDoneResult]
        · simp [ht0, textDeltasConcat, hds hd2, emptyPartDoneResult]
      · intro ha hc2
        simp only [stepEvent, handleContentPartDone]
        by_cases ht0 : t = ""
        · subst ht0; simp [emptyPartDoneResult]; exact hact ha hc2
        · simp [ht0, emptyPartDoneResult]; exact hact ha hc2
  | refusal t =>
    by_cases hm : mid = id
    · subst hm
      have : False := by simp [textWfStep, isTextPart] at hw
      exact this.elim
    · have hw1 : w' = w := by
        simp [textWfStep, isTextPart, hm] at hw
        exact hw.symm
      subst hw1
      refine ⟨?_, ?_, ?_⟩
      · simp only [stepEvent, handleContentPartDone]
        unfold textBufOf at hbuf ⊢
        by_cases ht0 : t = ""
        · subst ht0; simp [hbuf, textDeltasConcat, emptyPartDoneResult]
        · simp [ht0, mapGet_mapSet_ne _ _ _ _ hm, hbuf, textDeltasConcat, emptyPartDoneResult]
      · intro hd2
        simp only [stepEvent, handleContentPartDone]
        by_cases ht0 : t = ""
        · subst ht0; simp [textDeltasConcat, hds hd2, emptyPartDoneResult]
        · simp [ht0, textDeltasConcat, hds hd2, emptyPartDoneResult]
      · intro ha hc2
        simp only [stepEvent, handleContentPartDone]
        by_cases ht0 : t = ""
        · subst ht0; simp [emptyPartDoneResult]; exact hact ha hc2
        · simp [ht0, emptyPartDoneResult]; exact hact ha hc2

/-- Invariant preservation, item-done case. -/
theorem textInv_step_itemDone (store : Bool) (id : String) (s : DriverState)
    (c : String) (w w' : TextWf) (did : String) (kind : ItemKind)
    (hw : textWfStep id (some w) (.outputItemDone did kind) = some w')
    (hinv : TextInv id s c w) :
    TextInv id (stepEvent store s (.outputItemDone did kind)).1
      (c ++ textDeltasConcat id (stepEvent store s (.outputItemDone did kind)).2) w' := by
  obtain ⟨hbuf, hds, hact⟩ := hinv
  have hcz : textDeltasConcat id (stepEvent store s (.outputItemDone did kind)).2 = "" := by
    apply textDeltasConcat_of_countP_zero
    simp only [stepEvent] <;> (repeat' split) <;>
      simp [List.countP_cons, List.countP_map, List.countP_eq_zero]
  have hbufsame : (stepEvent store s (.outputItemDone did kind)).1.parse.textBuffers
      = s.parse.textBuffers := by
    simp only [stepEvent] <;> (repeat' split) <;> simp
  by_cases hm : did = id
  · subst hm
    have hw1 : w' = { added := w.added, deltaSeen := w.deltaSeen, closed := true } := by
      simp [textWfStep] at hw
      exact hw.symm
    subst hw1
    refine ⟨?_, ?_, ?_⟩
    · rw [hcz, String.append_empty]
      unfold textBufOf at hbuf ⊢
      rw [hbufsame]; exact hbuf
    · intro hd2; rw [hcz, String.append_empty]; exact hds hd2
    · intro _ hcc; exact absurd hcc (by simp)
  · have hw1 : w' = w := by
      simp [textWfStep, hm] at hw
      exact hw.symm
    subst hw1
    refine ⟨?_, ?_, ?_⟩
    · rw [hcz, String.append_empty]
      unfold textBufOf at hbuf ⊢
      rw [hbufsame]; exact hbuf
    · intro hd2; rw [hcz, String.append_empty]; exact hds hd2
    · intro ha hc2
      have hsame : setHas
          (stepEvent store s (.outputItemDone did kind)).1.parse.activeTextItems id
          = setHas s.parse.activeTextItems id := by
        simp only [stepEvent] <;> (repeat' split) <;>
          simp [setHas_setDel_ne _ _ _ (fun hh => hm hh.symm)]
      rw [hsame]; exact hact ha hc2

/-- Invariant preservation for every wire event accepted by the scan. -/
theorem textInv_step (store : Bool) (id : String) (s : DriverState) (c : String)
    (w w' : TextWf) (e : WireEvent)
    (hw : textWfStep id (some w) e = some w')
    (hinv : TextInv id s c w) :
    TextInv id (stepEvent store s e).1
      (c ++ textDeltasConcat id (stepEvent store s e).2) w' := by
  cases e with
  | outputItemAdded item =>
    cases item with
    | message mid content =>
      exact textInv_step_messageAdded store id s c w w' mid content hw hinv
    | reasoning a b =>
      exact textInv_step_untouched store id s c w w' _ (by simp [touchesText]) hw hinv
    | functionCall a b c2 d =>
      exact textInv_step_untouched store id s c w w' _ (by simp [touchesText]) hw hinv
  | outputTextDelta mid d =>
    exact textInv_step_textDelta store id s c w w' mid d hw hinv
  | contentPartAdded mid part =>
    exact textInv_step_partAdded store id s c w w' mid part hw hinv
  | contentPartDone mid part =>
    exact textInv_step_partDone store id s c w w' mid part hw hinv
  | outputItemDone did kind =>
    exact textInv_step_itemDone store id s c w w' did kind hw hinv
  | created a b c2 =>
    exact textInv_step_untouched store id s c w w' _ (by simp [touchesText]) hw hinv
  | outputTextDone a b =>
    exact textInv_step_untouched store id s c w w' _ (by simp [touchesText]) hw hinv
  | reasoningTextDelta a b =>
    exact textInv_step_untouched store id s c w w' _ (by simp [touchesText]) hw hinv
  | functionCallArgumentsDelta a b =>
    exact textInv_step_untouched store id s c w w' _ (by simp [touchesText]) hw hinv
  | functionCallArgumentsDone a =>
    exact textInv_step_untouched store id s c w w' _ (by simp [touchesText]) hw hinv
  | reasoningSummaryPartAdded a b =>
    exact textInv_step_untouched store id s c w w' _ (by simp [touchesText]) hw hinv
  | reasoningSummaryTextDelta a b c2 =>
    exact textInv_step_untouched store id s c w w' _ (by simp [touchesText]) hw hinv
  | reasoningSummaryTextDone a b c2 =>
    exact textInv_step_untouched store id s c w w' _ (by simp [touchesText]) hw hinv
  | reasoningSummaryPartDone a b =>
    exact textInv_step_untouched store id s c w w' _ (by simp [touchesText]) hw hinv
  | completed a b c2 =>
    exact textInv_step_untouched store id s c w w' _ (by simp [touchesText]) hw hinv
  | errorEvent a =>
    exact textInv_step_untouched store id s c w w' _ (by simp [touchesText]) hw hinv
  | invalid =>
    exact textInv_step_untouched store id s c w w' _ (by simp [touchesText]) hw hinv

/-- The well-formedness scan never recovers from rejection. -/
theorem textWf_foldl_none (id : String) (events : List WireEvent) :
    events.foldl (textWfStep id) none = none := by
  induction events with
  | nil => rfl
  | cons e rest ih =>
    rw [List.foldl_cons]
    have : textWfStep id none e = none := rfl
    rw [this]
    exact ih

/-- Invariant preservation over a whole run. -/
theorem textInv_run (store : Bool) (id : String) (events : List WireEvent) :
    ∀ (s : DriverState) (c : String) (w w' : TextWf),
    events.foldl (textWfStep id) (some w) = some w' →
    TextInv id s c w →
    TextInv id (runEvents store s events).1
      (c ++ textDeltasConcat id (runEvents store s events).2) w' := by
  induction events with
  | nil =>
    intro s c w w' hfold hinv
    have hww : w = w' := by simpa using hfold
    subst hww
    simpa [runEvents, textDeltasConcat, String.append_empty] using hinv
  | cons e rest ih =>
    intro s c w w' hfold hinv
    rw [List.foldl_cons] at hfold
    cases hstep1 : textWfStep id (some w) e with
    | none =>
      rw [hstep1, textWf_foldl_none] at hfold
      exact absurd hfold (by simp)
    | some w1 =>
      rw [hstep1] at hfold
      have h1 := textInv_step store id s c w w1 e hstep1 hinv
      have h2 := ih (stepEvent store s e).1
        (c ++ textDeltasConcat id (stepEvent store s e).2) w1 w' hfold h1
      cases hse : stepEvent store s e with
      | mk s1 out1 =>
        cases hrr : runEvents store s1 rest with
        | mk s2 out2 =>
          rw [hse, hrr] at h2
          simp only [runEvents, hse, hrr]
          simpa [textDeltasConcat_append, String.append_assoc] using h2

/-- **C8 (amended)**: over any wire-event sequence accepted by the text
well-formedness scan for an identifier — no `content_part.done` carrying
text for it, at most one message item-added and only before its deltas,
nothing after its item-done — the accumulated text buffer for that
identifier equals the ordered concatenation of every `text-delta` lifecycle
event emitted for it. (The unrestricted claim fails: `content_part.done`
appends its final text to the buffer without emitting a delta, and
reasoning-summary deltas are emitted under sub-part identifiers that are
never buffered.) -/
theorem text_buffer_eq_emitted_deltas (store : Bool) (events : List WireEvent)
    (id : String) (h : textWf id events = true) :
    textBufOf (finalDriverState store events) id
      = textDeltasConcat id (runEvents store initialDriverState events).2 := by
  unfold textWf at h
  cases hfold : events.foldl (textWfStep id) (some textWfInit) with
  | none => rw [hfold] at h; simp at h
  | some w' =>
    have hinv0 : TextInv id initialDriverState "" textWfInit := by
      refine ⟨rfl, fun _ => rfl, fun ha _ => ?_⟩
      simp [textWfInit] at ha
    have hrun := textInv_run store id events initialDriverState "" textWfInit w' hfold hinv0
    unfold finalDriverState
    have h1 := hrun.1
    rwa [String.empty_append] at h1

/-- Witness: the buffer-equals-concatenation theorem at a concrete
well-formed sequence mixing an item-level delta and a content-part delta
for the same item. -/
theorem text_buffer_eq_emitted_deltas_witness :
    textWf "m1" [.outputItemAdded (.message "m1" []), .outputTextDelta "m1" "Hel",
        .contentPartAdded "m1" (.outputText "lo"), .outputItemDone "m1" .message] = true
    ∧ textBufOf (finalDriverState true
        [.outputItemAdded (.message "m1" []), .outputTextDelta "m1" "Hel",
          .contentPartAdded "m1" (.outputText "lo"), .outputItemDone "m1" .message]) "m1"
      = textDeltasConcat "m1" (runEvents true initialDriverState
        [.outputItemAdded (.message "m1" []), .outputTextDelta "m1" "Hel",
          .contentPartAdded "m1" (.outputText "lo"), .outputItemDone "m1" .message]).2
    ∧ textBufOf (finalDriverState true
        [.outputItemAdded (.message "m1" []), .outputTextDelta "m1" "Hel",
          .contentPartAdded "m1" (.outputText "lo"), .outputItemDone "m1" .message]) "m1"
      = "Hello" := by
  refine ⟨by decide, text_buffer_eq_emitted_deltas true _ "m1" (by decide), by decide⟩

/-- **C8 counterexample**: a `content_part.done` event appends its final
text to the buffer without emitting any `text-delta`, so the buffer and the
delta concatenation diverge. -/
theorem buffer_concat_counterexample :
    textBufOf (finalDriverState true
        [.outputItemAdded (.message "m1" []), .contentPartDone "m1" (.outputText "Hi")])
        "m1" = "Hi"
    ∧ textDeltasConcat "m1"
        (runEvents true initialDriverState
          [.outputItemAdded (.message "m1" []),
            .contentPartDone "m1" (.outputText "Hi")]).2 = ""
    ∧ ("Hi" : String) ≠ "" := by decide
